import Mathlib

/-!
Verification of the cuckatoo-mining reference implementation.

This file contains a shallow embedding, in Lean 4, of the core functions of
the repository (SipHash-2-4 edge oracle, Blake2b-style key derivation,
bitmap trimmers, hash-table cycle finder, parameter validation), together
with theorems settling the frozen claims about the program.

Machine integers are modelled as `Nat` with explicit reduction modulo
`2 ^ 64` (or `2 ^ 32`) exactly where the Rust source wraps.
-/

namespace Cuckatoo

/-- Wrap to 64 bits, matching Rust u64 wrapping arithmetic. -/
def wrap64 (x : Nat) : Nat := x % 2 ^ 64

/-- u64 wrapping addition. -/
def add64 (a b : Nat) : Nat := (a + b) % 2 ^ 64

/-- u64 rotate-left by r bits (0 < r < 64), matching u64::rotate_left. -/
def rotl64 (x r : Nat) : Nat := ((x <<< r) % 2 ^ 64) ||| (x >>> (64 - r))

/-- The four u64 SipHash keys, mirroring the `[u64; 4]` key array. -/
structure SipKeys where
  k0 : Nat
  k1 : Nat
  k2 : Nat
  k3 : Nat
deriving Repr, DecidableEq

/-- The four u64 SipHash state words. -/
structure SipState where
  s0 : Nat
  s1 : Nat
  s2 : Nat
  s3 : Nat
deriving Repr, DecidableEq

/-- SipRound exactly as in ExactSipHash::sip_round
(src/cuckatoo-core/src/exact_siphash.rs lines 57-88). -/
def sip_round (s : SipState) : SipState :=
  let s0 := add64 s.s0 s.s1
  let s2 := add64 s.s2 s.s3
  let s1 := rotl64 s.s1 13
  let s3 := rotl64 s.s3 16
  let s1 := s1 ^^^ s0
  let s3 := s3 ^^^ s2
  let s0 := rotl64 s0 32
  let s2 := add64 s2 s1
  let s0 := add64 s0 s3
  let s1 := rotl64 s1 17
  let s3 := rotl64 s3 21
  let s1 := s1 ^^^ s2
  let s3 := s3 ^^^ s0
  let s2 := rotl64 s2 32
  SipState.mk s0 s1 s2 s3

/-- ExactSipHash::hash_nonce (src/cuckatoo-core/src/exact_siphash.rs lines
28-54): fold the nonce into state 3, two rounds, nonce into state 0 and
0xff into state 2, four rounds, xor the four states, mask unless
edge_bits == 32. -/
def hash_nonce (keys : SipKeys) (edge_bits : Nat) (nonce : Nat) : Nat :=
  let st := SipState.mk keys.k0 keys.k1 keys.k2 (keys.k3 ^^^ nonce)
  let st := sip_round (sip_round st)
  let st := SipState.mk (st.s0 ^^^ nonce) st.s1 (st.s2 ^^^ 255) st.s3
  let st := sip_round (sip_round (sip_round (sip_round st)))
  let x := st.s0 ^^^ st.s1 ^^^ st.s2 ^^^ st.s3
  if edge_bits == 32 then x else x &&& ((1 <<< edge_bits) - 1)

/-- One SipRound in the textbook operation order used by the reference
SipHash specification (rotations 13, 16, 32, 17, 21, 32); this is the
round the natural-language spec describes. -/
def specRound (s : SipState) : SipState :=
  let v0 := add64 s.s0 s.s1
  let v1 := rotl64 s.s1 13
  let v1 := v1 ^^^ v0
  let v0 := rotl64 v0 32
  let v2 := add64 s.s2 s.s3
  let v3 := rotl64 s.s3 16
  let v3 := v3 ^^^ v2
  let v0 := add64 v0 v3
  let v3 := rotl64 v3 21
  let v3 := v3 ^^^ v0
  let v2 := add64 v2 v1
  let v1 := rotl64 v1 17
  let v1 := v1 ^^^ v2
  let v2 := rotl64 v2 32
  SipState.mk v0 v1 v2 v3

/-- The SipHash-2-4 evaluation exactly as the specification words it:
nonce xored into state 3 before the two compression rounds, the same
nonce xored into state 0 before finalization, 0xff xored into state 2,
four finalization rounds, xor of the four states masked to edge_bits bits
(no mask when edge_bits equals 32). -/
def sipHashSpec (keys : SipKeys) (edge_bits : Nat) (nonce : Nat) : Nat :=
  let st := SipState.mk keys.k0 keys.k1 keys.k2 (keys.k3 ^^^ nonce)
  let st := specRound (specRound st)
  let st := SipState.mk (st.s0 ^^^ nonce) st.s1 (st.s2 ^^^ 255) st.s3
  let st := specRound (specRound (specRound (specRound st)))
  let x := st.s0 ^^^ st.s1 ^^^ st.s2 ^^^ st.s3
  if edge_bits == 32 then x else x &&& ((1 <<< edge_bits) - 1)

/-- siphash24_single (src/cuckatoo-miner/src/main.rs lines 248-368): the
miner's manually unrolled SipHash-2-4; note the mask is applied only when
edge_bits < 32 (so edge_bits above 32 is returned unmasked). -/
def siphash24_single (keys : SipKeys) (nonce : Nat) (edge_bits : Nat) : Nat :=
  let st := SipState.mk keys.k0 keys.k1 keys.k2 (keys.k3 ^^^ nonce)
  let st := sip_round st
  let st := sip_round st
  let st := SipState.mk st.s0 st.s1 (st.s2 ^^^ 0xff) st.s3
  let st := sip_round st
  let st := sip_round st
  let st := sip_round st
  let st := sip_round st
  let v0 := st.s0 ^^^ st.s1
  let v2 := st.s2 ^^^ st.s3
  let v0 := v0 ^^^ v2
  if edge_bits < 32 then v0 &&& ((1 <<< edge_bits) - 1) else v0

/-- The claimed SipHash-2-4 structure with the pre-finalization XOR of the
nonce into state 0 omitted and the mask applied exactly when
edge_bits < 32: this is what the miner's siphash24_single actually
computes. -/
def sipHashSpecNoPre (keys : SipKeys) (edge_bits : Nat) (nonce : Nat) : Nat :=
  let st := SipState.mk keys.k0 keys.k1 keys.k2 (keys.k3 ^^^ nonce)
  let st := specRound (specRound st)
  let st := SipState.mk st.s0 st.s1 (st.s2 ^^^ 255) st.s3
  let st := specRound (specRound (specRound (specRound st)))
  let x := st.s0 ^^^ st.s1 ^^^ st.s2 ^^^ st.s3
  if edge_bits < 32 then x &&& ((1 <<< edge_bits) - 1) else x

/-- One mixing step of the so-called blake2b function
(src/cuckatoo-core/src/blake2b.rs lines 16-25): wrapping multiply by the
golden-ratio constant, xor the input, rotate left by 13. -/
def blake2b_mix (state : Nat) (b : Nat) : Nat :=
  rotl64 ((wrap64 (state * 0x9e3779b97f4a7c15)) ^^^ b) 13

/-- One key-generation step of the so-called blake2b function
(src/cuckatoo-core/src/blake2b.rs lines 28-32): wrapping multiply then
rotate left by 13. -/
def blake2b_keystep (state : Nat) : Nat :=
  rotl64 (wrap64 (state * 0x9e3779b97f4a7c15)) 13

/-- blake2b (src/cuckatoo-core/src/blake2b.rs lines 6-35): the
key-derivation function of the repository.  Despite its name it is a
multiplicative mixer, not Blake2b: it folds the header bytes and the
nonce into a single u64 state and then squeezes four keys out of it. -/
def blake2b (header : List Nat) (nonce : Nat) : SipKeys :=
  let h := header.foldl blake2b_mix 0
  let h := blake2b_mix h nonce
  let k0 := blake2b_keystep h
  let k1 := blake2b_keystep k0
  let k2 := blake2b_keystep k1
  let k3 := blake2b_keystep k2
  SipKeys.mk k0 k1 k2 k3

/-- Wrap to 32 bits (Rust u32 cast). -/
def wrap32 (x : Nat) : Nat := x % 2 ^ 32

/-- ExactSipHash (src/cuckatoo-core/src/exact_siphash.rs lines 9-20):
keys plus the edge_bits used for the node mask. -/
structure ExactSipHash where
  keys : SipKeys
  edge_bits : Nat
deriving Repr, DecidableEq

/-- ExactSipHash::hash_nonce as a method. -/
def ExactSipHash.hash (s : ExactSipHash) (nonce : Nat) : Nat :=
  hash_nonce s.keys s.edge_bits nonce

/-- An edge of the graph: its two endpoint node values
(src/cuckatoo-core/src/types.rs lines 14-19). -/
structure Edge where
  u : Nat
  v : Nat
deriving Repr, DecidableEq

/-- ExactTrimmer (src/cuckatoo-core/src/exact_trimming.rs lines 9-20):
edges bitmap of u64 words, nodes bitmap of u32 words. -/
structure ExactTrimmer where
  edge_bits : Nat
  number_of_edges : Nat
  edges_bitmap : List Nat
  nodes_bitmap : List Nat
deriving Repr, DecidableEq

/-- ExactTrimmer::new (src/cuckatoo-core/src/exact_trimming.rs lines
24-41): performs no validation of edge_bits; allocates both bitmaps
unconditionally.  The u32 shift follows release-mode semantics (shift
amount taken mod 32, value mod 2^32). -/
def ExactTrimmer.new (edge_bits : Nat) : ExactTrimmer :=
  let number_of_edges := wrap32 (1 <<< (edge_bits % 32))
  let edges_bitmap_size := (number_of_edges + 63) / 64
  let nodes_bitmap_size := (number_of_edges + 31) / 32
  ExactTrimmer.mk edge_bits number_of_edges
    (List.replicate edges_bitmap_size 0) (List.replicate nodes_bitmap_size 0)

/-- The shared bitmap-initialization code of
ExactTrimmer::initialize_edges_bitmap and
BitmapTrimmer::generate_edges_bitmap: set every word to u64::MAX and
clear the excess bits of the last word. -/
def initBitmapList (number_of_edges : Nat) (l : List Nat) : List Nat :=
  let allOnes := l.map (fun _ => 2 ^ 64 - 1)
  let excess_bits := l.length * 64 - number_of_edges
  if excess_bits > 0 then
    let last_index := allOnes.length - 1
    let mask := (1 <<< (64 - excess_bits)) - 1
    allOnes.set last_index ((allOnes.getD last_index 0) &&& mask)
  else allOnes

/-- ExactTrimmer::initialize_edges_bitmap
(src/cuckatoo-core/src/exact_trimming.rs lines 68-81). -/
def ExactTrimmer.initEdgesBitmap (t : ExactTrimmer) : ExactTrimmer :=
  ExactTrimmer.mk t.edge_bits t.number_of_edges
    (initBitmapList t.number_of_edges t.edges_bitmap) t.nodes_bitmap

/-- ExactTrimmer::clear_nodes_bitmap
(src/cuckatoo-core/src/exact_trimming.rs lines 84-86). -/
def ExactTrimmer.clear_nodes (t : ExactTrimmer) : ExactTrimmer :=
  ExactTrimmer.mk t.edge_bits t.number_of_edges t.edges_bitmap
    (t.nodes_bitmap.map (fun _ => 0))

/-- ExactTrimmer::set_bit_in_nodes_bitmap
(src/cuckatoo-core/src/exact_trimming.rs lines 221-227): u32 words. -/
def setBitNodes (bm : List Nat) (index : Nat) : List Nat :=
  let word_index := index / 32
  let bit_index := index % 32
  if word_index < bm.length then
    bm.set word_index ((bm.getD word_index 0) ||| (1 <<< bit_index))
  else bm

/-- ExactTrimmer::is_bit_set_in_nodes_bitmap
(src/cuckatoo-core/src/exact_trimming.rs lines 230-238). -/
def isBitSetNodes (bm : List Nat) (index : Nat) : Bool :=
  let word_index := index / 32
  let bit_index := index % 32
  if word_index < bm.length then
    ((bm.getD word_index 0) &&& (1 <<< bit_index)) != 0
  else false

/-- ExactTrimmer::trim_edges_step_one
(src/cuckatoo-core/src/exact_trimming.rs lines 89-100): marks the first
partition node of EVERY edge index, regardless of the edges bitmap. -/
def ExactTrimmer.trim_edges_step_one (sip : ExactSipHash) (t : ExactTrimmer) :
    ExactTrimmer :=
  ExactTrimmer.mk t.edge_bits t.number_of_edges t.edges_bitmap
    ((List.range t.number_of_edges).foldl
      (fun nodes e => setBitNodes nodes (wrap32 (sip.hash (e * 2))))
      t.nodes_bitmap)

/-- ExactTrimmer::trim_edges_step_two
(src/cuckatoo-core/src/exact_trimming.rs lines 103-131): rebuild each
word, keeping an alive edge only when its node's pair is marked. -/
def ExactTrimmer.trim_edges_step_two (sip : ExactSipHash) (t : ExactTrimmer) :
    ExactTrimmer :=
  ExactTrimmer.mk t.edge_bits t.number_of_edges
    (t.edges_bitmap.mapIdx (fun word_index word =>
      (List.range 64).foldl (fun new_edges bit_index =>
        if word.testBit bit_index then
          let edge_index := word_index * 64 + bit_index
          if edge_index < t.number_of_edges then
            if isBitSetNodes t.nodes_bitmap
                ((wrap32 (sip.hash (edge_index * 2))) ^^^ 1) then
              new_edges ||| (1 <<< bit_index)
            else new_edges
          else new_edges
        else new_edges) 0))
    t.nodes_bitmap

/-- ExactTrimmer::trim_edges_step_three
(src/cuckatoo-core/src/exact_trimming.rs lines 134-157): marks the second
partition node of every alive edge. -/
def ExactTrimmer.trim_edges_step_three (sip : ExactSipHash) (t : ExactTrimmer) :
    ExactTrimmer :=
  ExactTrimmer.mk t.edge_bits t.number_of_edges t.edges_bitmap
    ((List.range t.edges_bitmap.length).foldl (fun nodes word_index =>
      let word := t.edges_bitmap.getD word_index 0
      (List.range 64).foldl (fun nodes bit_index =>
        if word.testBit bit_index then
          let edge_index := word_index * 64 + bit_index
          if edge_index < t.number_of_edges then
            setBitNodes nodes (wrap32 (sip.hash (edge_index * 2 ||| 1)))
          else nodes
        else nodes) nodes) t.nodes_bitmap)

/-- ExactTrimmer::trim_edges_step_four
(src/cuckatoo-core/src/exact_trimming.rs lines 160-189): clear (by xor)
each alive edge whose second-partition node has no marked pair. -/
def ExactTrimmer.trim_edges_step_four (sip : ExactSipHash) (t : ExactTrimmer) :
    ExactTrimmer :=
  ExactTrimmer.mk t.edge_bits t.number_of_edges
    (t.edges_bitmap.mapIdx (fun word_index word =>
      (List.range 64).foldl (fun new_edges bit_index =>
        if word.testBit bit_index then
          let edge_index := word_index * 64 + bit_index
          if edge_index < t.number_of_edges then
            if ! isBitSetNodes t.nodes_bitmap
                ((wrap32 (sip.hash (edge_index * 2 ||| 1))) ^^^ 1) then
              new_edges ^^^ (1 <<< bit_index)
            else new_edges
          else new_edges
        else new_edges) word))
    t.nodes_bitmap

/-- One iteration of the trimming loop of ExactTrimmer::trim_edges
(src/cuckatoo-core/src/exact_trimming.rs lines 49-61): round 0 runs steps
one and two (first partition), every later round runs steps three and
four (second partition). -/
def ExactTrimmer.applyRound (sip : ExactSipHash) (t : ExactTrimmer)
    (round : Nat) : ExactTrimmer :=
  if round == 0 then
    ExactTrimmer.trim_edges_step_two sip
      (ExactTrimmer.trim_edges_step_one sip (ExactTrimmer.clear_nodes t))
  else
    ExactTrimmer.trim_edges_step_four sip
      (ExactTrimmer.trim_edges_step_three sip (ExactTrimmer.clear_nodes t))

/-- The trimming-rounds loop of ExactTrimmer::trim_edges. -/
def ExactTrimmer.runRounds (sip : ExactSipHash) (t : ExactTrimmer)
    (trimming_rounds : Nat) : ExactTrimmer :=
  (List.range trimming_rounds).foldl (ExactTrimmer.applyRound sip) t

/-- ExactTrimmer::generate_final_edges
(src/cuckatoo-core/src/exact_trimming.rs lines 192-218). -/
def ExactTrimmer.generate_final_edges (sip : ExactSipHash) (t : ExactTrimmer) :
    List Edge :=
  (List.range t.edges_bitmap.length).foldl (fun edges word_index =>
    let word := t.edges_bitmap.getD word_index 0
    (List.range 64).foldl (fun edges bit_index =>
      if word.testBit bit_index then
        let edge_index := word_index * 64 + bit_index
        if edge_index < t.number_of_edges then
          edges ++ [Edge.mk (sip.hash (edge_index * 2)) (sip.hash (edge_index * 2 + 1))]
        else edges
      else edges) edges) []

/-- ExactTrimmer::trim_edges (src/cuckatoo-core/src/exact_trimming.rs
lines 44-65): initialize, run the rounds, emit the surviving edges.  The
Rust Result wrapper is dropped because no step can fail. -/
def ExactTrimmer.trim_edges (sip : ExactSipHash) (t : ExactTrimmer)
    (trimming_rounds : Nat) : List Edge :=
  ExactTrimmer.generate_final_edges sip
    (ExactTrimmer.runRounds sip (ExactTrimmer.initEdgesBitmap t) trimming_rounds)

/-- Number of set bits of a 64-bit machine word. -/
def popcountWord (n : Nat) : Nat :=
  ((List.range 64).filter (fun i => n.testBit i)).length

/-- All words of a bitmap fit in 64 bits. -/
def wordsLt (bm : List Nat) : Prop := ∀ w ∈ bm, w < 2 ^ 64

/-- Total number of set bits of a bitmap. -/
def popcountBitmap (bm : List Nat) : Nat := (bm.map popcountWord).sum

/-- One full trimming round as the specification words it: a
first-partition mark/sweep (steps one and two) followed by a
second-partition mark/sweep (steps three and four). -/
def ExactTrimmer.specFullRound (sip : ExactSipHash) (t : ExactTrimmer) :
    ExactTrimmer :=
  ExactTrimmer.trim_edges_step_four sip
    (ExactTrimmer.trim_edges_step_three sip
      (ExactTrimmer.clear_nodes
        (ExactTrimmer.trim_edges_step_two sip
          (ExactTrimmer.trim_edges_step_one sip (ExactTrimmer.clear_nodes t)))))

/-- The trimming loop as the specification words it: every iteration is a
full round over both partitions, and the loop stops early at the first
round that removes zero edges. -/
def ExactTrimmer.specTrimRounds (sip : ExactSipHash) (t : ExactTrimmer) :
    Nat → ExactTrimmer
  | 0 => t
  | r + 1 =>
    let t2 := ExactTrimmer.specFullRound sip t
    if popcountBitmap t2.edges_bitmap == popcountBitmap t.edges_bitmap then t2
    else ExactTrimmer.specTrimRounds sip t2 r

/-- Fuel-bounded trailing-zero count. -/
def ctzAux : Nat → Nat → Nat
  | 0, _ => 0
  | fuel + 1, n => if n % 2 = 1 then 0 else ctzAux fuel (n / 2) + 1

/-- u64::trailing_zeros: the trailing-zero count of a 64-bit word
(64 on 0). -/
def ctz (n : Nat) : Nat := ctzAux 64 n

/-- The set-bit iteration pattern of bitmap_trimming.rs
(while unit is nonzero: bit_pos is the trailing-zero count, the body
runs, the lowest set bit is cleared, bit_index increments).  The fuel
bounds the iteration count; 65 is enough for any 64-bit word. -/
def tzFold {α : Type} (f : α → Nat → Nat → α) :
    Nat → Nat → Nat → α → α
  | 0, _, _, acc => acc
  | fuel + 1, unit, bit_index, acc =>
    if unit == 0 then acc
    else
      tzFold f fuel (unit &&& (unit - 1)) (bit_index + 1)
        (f acc bit_index (ctz unit))

/-- BitmapTrimmer (src/cuckatoo-core/src/bitmap_trimming.rs lines 12-18):
both bitmaps use u64 words. -/
structure BitmapTrimmer where
  edge_bits : Nat
  number_of_edges : Nat
  node_mask : Nat
  edges_bitmap : List Nat
  nodes_bitmap : List Nat
deriving Repr, DecidableEq

/-- BitmapTrimmer::new (src/cuckatoo-core/src/bitmap_trimming.rs lines
22-37): no validation; u64 shift, release semantics. -/
def BitmapTrimmer.new (edge_bits : Nat) : BitmapTrimmer :=
  let number_of_edges := wrap64 (1 <<< (edge_bits % 64))
  let node_mask := number_of_edges - 1
  let size := (number_of_edges + 63) / 64
  BitmapTrimmer.mk edge_bits number_of_edges node_mask
    (List.replicate size 0) (List.replicate size 0)

/-- BitmapTrimmer::sip_round (src/cuckatoo-core/src/bitmap_trimming.rs
lines 318-334): the same SipRound dataflow in yet another operation
order. -/
def sip_round_b (s : SipState) : SipState :=
  let s0 := add64 s.s0 s.s1
  let s1 := rotl64 s.s1 13
  let s1 := s1 ^^^ s0
  let s0 := rotl64 s0 32
  let s2 := add64 s.s2 s.s3
  let s3 := rotl64 s.s3 16
  let s3 := s3 ^^^ s2
  let s0 := add64 s0 s3
  let s3 := rotl64 s3 21
  let s3 := s3 ^^^ s0
  let s2 := add64 s2 s1
  let s1 := rotl64 s1 17
  let s1 := s1 ^^^ s2
  let s2 := rotl64 s2 32
  SipState.mk s0 s1 s2 s3

/-- BitmapTrimmer::siphash24_internal
(src/cuckatoo-core/src/bitmap_trimming.rs lines 298-315). -/
def BitmapTrimmer.siphash24_internal (key : SipKeys) (nonce : Nat) : Nat :=
  let st := SipState.mk key.k0 key.k1 key.k2 (key.k3 ^^^ nonce)
  let st := sip_round_b (sip_round_b st)
  let st := SipState.mk (st.s0 ^^^ nonce) st.s1 (st.s2 ^^^ 255) st.s3
  let st := sip_round_b (sip_round_b (sip_round_b (sip_round_b st)))
  st.s0 ^^^ st.s1 ^^^ st.s2 ^^^ st.s3

/-- BitmapTrimmer::siphash24 (src/cuckatoo-core/src/bitmap_trimming.rs
lines 285-295). -/
def BitmapTrimmer.siphash24 (t : BitmapTrimmer) (key : SipKeys)
    (nonce : Nat) : Nat :=
  if t.edge_bits == 32 then BitmapTrimmer.siphash24_internal key nonce
  else BitmapTrimmer.siphash24_internal key nonce &&& t.node_mask

/-- BitmapTrimmer::set_bit_in_bitmap
(src/cuckatoo-core/src/bitmap_trimming.rs lines 337-343): u64 words. -/
def setBit64 (bm : List Nat) (index : Nat) : List Nat :=
  let word_index := index / 64
  let bit_index := index % 64
  if word_index < bm.length then
    bm.set word_index ((bm.getD word_index 0) ||| (1 <<< bit_index))
  else bm

/-- BitmapTrimmer::is_bit_set_in_bitmap
(src/cuckatoo-core/src/bitmap_trimming.rs lines 346-354). -/
def isBitSet64 (bm : List Nat) (index : Nat) : Bool :=
  let word_index := index / 64
  let bit_index := index % 64
  if word_index < bm.length then
    ((bm.getD word_index 0) &&& (1 <<< bit_index)) != 0
  else false

/-- BitmapTrimmer::generate_edges_bitmap
(src/cuckatoo-core/src/bitmap_trimming.rs lines 69-89): all ones, excess
bits of the last word cleared (debug prints dropped). -/
def BitmapTrimmer.generate_edges_bitmap (t : BitmapTrimmer) : BitmapTrimmer :=
  BitmapTrimmer.mk t.edge_bits t.number_of_edges t.node_mask
    (initBitmapList t.number_of_edges t.edges_bitmap) t.nodes_bitmap

/-- BitmapTrimmer::trim_edges_step_one
(src/cuckatoo-core/src/bitmap_trimming.rs lines 93-129): clear the nodes
bitmap, then mark the first-partition node of each edge found by the
set-bit iteration.  Note the loop computes
edge_index = bitmap_index * 64 + bit_index * 64 + bit_pos, where
bit_index counts set bits already handled in the word: for every set bit
after the first in a word this is not the edge the bit encodes. -/
def BitmapTrimmer.trim_edges_step_one (key : SipKeys) (t : BitmapTrimmer) :
    BitmapTrimmer :=
  let nodes0 := t.nodes_bitmap.map (fun _ => 0)
  let nodes :=
    (List.range t.edges_bitmap.length).foldl (fun nodes bitmap_index =>
      tzFold (fun nodes bit_index bit_pos =>
        let edge_index := bitmap_index * 64 + bit_index * 64 + bit_pos
        if edge_index < t.number_of_edges then
          setBit64 nodes (BitmapTrimmer.siphash24 t key (edge_index * 2))
        else nodes) 65 (t.edges_bitmap.getD bitmap_index 0) 0 nodes) nodes0
  BitmapTrimmer.mk t.edge_bits t.number_of_edges t.node_mask t.edges_bitmap nodes

/-- BitmapTrimmer::trim_edges_step_two
(src/cuckatoo-core/src/bitmap_trimming.rs lines 133-169): rebuild each
nonzero word keeping only iterated edges whose node has a marked pair
(with the same edge_index computation as step one). -/
def BitmapTrimmer.trim_edges_step_two (key : SipKeys) (t : BitmapTrimmer) :
    BitmapTrimmer :=
  BitmapTrimmer.mk t.edge_bits t.number_of_edges t.node_mask
    (t.edges_bitmap.mapIdx (fun bitmap_index unit =>
      if unit == 0 then unit
      else
        tzFold (fun new_unit bit_index bit_pos =>
          let edge_index := bitmap_index * 64 + bit_index * 64 + bit_pos
          if edge_index < t.number_of_edges then
            if isBitSet64 t.nodes_bitmap
                ((BitmapTrimmer.siphash24 t key (edge_index * 2)) ^^^ 1) then
              new_unit ||| (1 <<< bit_pos)
            else new_unit
          else new_unit) 65 unit 0 0))
    t.nodes_bitmap

/-- BitmapTrimmer::trim_edges_step_three
(src/cuckatoo-core/src/bitmap_trimming.rs lines 173-205): like step one
with the second-partition node. -/
def BitmapTrimmer.trim_edges_step_three (key : SipKeys) (t : BitmapTrimmer) :
    BitmapTrimmer :=
  let nodes0 := t.nodes_bitmap.map (fun _ => 0)
  let nodes :=
    (List.range t.edges_bitmap.length).foldl (fun nodes bitmap_index =>
      tzFold (fun nodes bit_index bit_pos =>
        let edge_index := bitmap_index * 64 + bit_index * 64 + bit_pos
        if edge_index < t.number_of_edges then
          setBit64 nodes (BitmapTrimmer.siphash24 t key (edge_index * 2 + 1))
        else nodes) 65 (t.edges_bitmap.getD bitmap_index 0) 0 nodes) nodes0
  BitmapTrimmer.mk t.edge_bits t.number_of_edges t.node_mask t.edges_bitmap nodes

/-- BitmapTrimmer::trim_edges_step_four
(src/cuckatoo-core/src/bitmap_trimming.rs lines 209-245): like step two
with the second-partition node. -/
def BitmapTrimmer.trim_edges_step_four (key : SipKeys) (t : BitmapTrimmer) :
    BitmapTrimmer :=
  BitmapTrimmer.mk t.edge_bits t.number_of_edges t.node_mask
    (t.edges_bitmap.mapIdx (fun bitmap_index unit =>
      if unit == 0 then unit
      else
        tzFold (fun new_unit bit_index bit_pos =>
          let edge_index := bitmap_index * 64 + bit_index * 64 + bit_pos
          if edge_index < t.number_of_edges then
            if isBitSet64 t.nodes_bitmap
                ((BitmapTrimmer.siphash24 t key (edge_index * 2 + 1)) ^^^ 1) then
              new_unit ||| (1 <<< bit_pos)
            else new_unit
          else new_unit) 65 unit 0 0))
    t.nodes_bitmap

/-- One iteration of the trimming loop of BitmapTrimmer::trim_edges
(src/cuckatoo-core/src/bitmap_trimming.rs lines 51-61): round 0 runs
steps one and two, every later round runs steps three and four. -/
def BitmapTrimmer.applyRound (key : SipKeys) (t : BitmapTrimmer)
    (round : Nat) : BitmapTrimmer :=
  if round == 0 then
    BitmapTrimmer.trim_edges_step_two key (BitmapTrimmer.trim_edges_step_one key t)
  else
    BitmapTrimmer.trim_edges_step_four key (BitmapTrimmer.trim_edges_step_three key t)

/-- The trimming-rounds loop of BitmapTrimmer::trim_edges. -/
def BitmapTrimmer.runRounds (key : SipKeys) (t : BitmapTrimmer)
    (trimming_rounds : Nat) : BitmapTrimmer :=
  (List.range trimming_rounds).foldl (BitmapTrimmer.applyRound key) t

/-- BitmapTrimmer::generate_final_edges
(src/cuckatoo-core/src/bitmap_trimming.rs lines 249-282). -/
def BitmapTrimmer.generate_final_edges (key : SipKeys) (t : BitmapTrimmer) :
    List Edge :=
  (List.range t.edges_bitmap.length).foldl (fun edges bitmap_index =>
    tzFold (fun edges bit_index bit_pos =>
      let edge_index := bitmap_index * 64 + bit_index * 64 + bit_pos
      if edge_index < t.number_of_edges then
        edges ++ [Edge.mk (BitmapTrimmer.siphash24 t key (edge_index * 2))
          (BitmapTrimmer.siphash24 t key (edge_index * 2 + 1))]
      else edges) 65 (t.edges_bitmap.getD bitmap_index 0) 0 edges) []

/-- BitmapTrimmer::trim_edges (src/cuckatoo-core/src/bitmap_trimming.rs
lines 46-65). -/
def BitmapTrimmer.trim_edges (key : SipKeys) (t : BitmapTrimmer)
    (trimming_rounds : Nat) : List Edge :=
  BitmapTrimmer.generate_final_edges key
    (BitmapTrimmer.runRounds key (BitmapTrimmer.generate_edges_bitmap t)
      trimming_rounds)

/-- The two intermediate states (after the mark step and after the sweep
step) of one iteration of ExactTrimmer::trim_edges. -/
def ExactTrimmer.roundStates (sip : ExactSipHash) (t : ExactTrimmer)
    (round : Nat) : List ExactTrimmer :=
  if round == 0 then
    let t1 := ExactTrimmer.trim_edges_step_one sip (ExactTrimmer.clear_nodes t)
    [t1, ExactTrimmer.trim_edges_step_two sip t1]
  else
    let t1 := ExactTrimmer.trim_edges_step_three sip (ExactTrimmer.clear_nodes t)
    [t1, ExactTrimmer.trim_edges_step_four sip t1]

/-- The successive per-step states of the trimming loop of
ExactTrimmer::trim_edges over the given round indices. -/
def ExactTrimmer.traceGo (sip : ExactSipHash) :
    ExactTrimmer → List Nat → List ExactTrimmer
  | _, [] => []
  | t, r :: rs =>
    ExactTrimmer.roundStates sip t r ++
      ExactTrimmer.traceGo sip (ExactTrimmer.applyRound sip t r) rs

/-- Every state of the trimming computation of ExactTrimmer::trim_edges:
the state after bitmap initialization and the state after each mark and
each sweep step of every round. -/
def ExactTrimmer.trace (sip : ExactSipHash) (t : ExactTrimmer)
    (trimming_rounds : Nat) : List ExactTrimmer :=
  let t0 := ExactTrimmer.initEdgesBitmap t
  t0 :: ExactTrimmer.traceGo sip t0 (List.range trimming_rounds)

/-- The two intermediate states of one iteration of
BitmapTrimmer::trim_edges. -/
def BitmapTrimmer.roundStates (key : SipKeys) (t : BitmapTrimmer)
    (round : Nat) : List BitmapTrimmer :=
  if round == 0 then
    let t1 := BitmapTrimmer.trim_edges_step_one key t
    [t1, BitmapTrimmer.trim_edges_step_two key t1]
  else
    let t1 := BitmapTrimmer.trim_edges_step_three key t
    [t1, BitmapTrimmer.trim_edges_step_four key t1]

/-- The successive per-step states of the trimming loop of
BitmapTrimmer::trim_edges over the given round indices. -/
def BitmapTrimmer.traceGo (key : SipKeys) :
    BitmapTrimmer → List Nat → List BitmapTrimmer
  | _, [] => []
  | t, r :: rs =>
    BitmapTrimmer.roundStates key t r ++
      BitmapTrimmer.traceGo key (BitmapTrimmer.applyRound key t r) rs

/-- Every state of the trimming computation of BitmapTrimmer::trim_edges. -/
def BitmapTrimmer.trace (key : SipKeys) (t : BitmapTrimmer)
    (trimming_rounds : Nat) : List BitmapTrimmer :=
  let t0 := BitmapTrimmer.generate_edges_bitmap t
  t0 :: BitmapTrimmer.traceGo key t0 (List.range trimming_rounds)

/-- Bitwise containment of machine words: every set bit of a is set in b. -/
def natSub (a b : Nat) : Prop := ∀ j, a.testBit j = true → b.testBit j = true

/-- Pointwise bitwise containment of bitmaps (same length). -/
def bitmapSub (a b : List Nat) : Prop := List.Forall₂ natSub a b

/-- The padding invariant, decidably: every bit of the bitmap at a
position at or above n (within the allocated words) is zero. -/
def padOkB (n : Nat) (bm : List Nat) : Bool :=
  (List.range bm.length).all fun word_index =>
    (List.range 64).all fun bit_index =>
      decide (word_index * 64 + bit_index < n) ||
        ! (bm.getD word_index 0).testBit bit_index

/-- TrimmingMode (src/cuckatoo-core/src/types.rs lines 185-192). -/
inductive TrimmingMode
  | leanMode
  | meanMode
  | sleanMode
deriving Repr, DecidableEq

/-- CuckatooError (src/cuckatoo-core/src/lib.rs lines 37-44); the String
payloads of the non-parameter variants are dropped. -/
inductive CuckatooError
  | InvalidEdgeBits (bits : Nat)
  | HashingError
  | TrimmingError
  | VerificationError
  | MemoryError
  | InternalError
deriving Repr, DecidableEq

/-- Config (src/cuckatoo-core/src/types.rs lines 132-141). -/
structure Config where
  edge_bits : Nat
  trimming_rounds : Nat
  mode : TrimmingMode
  tuning : Bool
deriving Repr, DecidableEq

/-- Config::validate (src/cuckatoo-core/src/types.rs lines 164-170). -/
def Config.validate (c : Config) : Except CuckatooError Unit :=
  if c.edge_bits < 10 ∨ c.edge_bits > 32 then
    Except.error (CuckatooError.InvalidEdgeBits c.edge_bits)
  else Except.ok ()

/-- SipHash (src/cuckatoo-core/src/hashing.rs lines 10-13). -/
structure SipHash where
  key : SipKeys
deriving Repr, DecidableEq

/-- One message-word absorption of hashing.rs siphash24: xor into state 3,
two rounds, xor into state 0 (lines 107-110 and 126-129). -/
def sipCompress (st : SipState) (m : Nat) : SipState :=
  let st := SipState.mk st.s0 st.s1 st.s2 (st.s3 ^^^ m)
  let st := sip_round (sip_round st)
  SipState.mk (st.s0 ^^^ m) st.s1 st.s2 st.s3

/-- The 8-byte-chunk loop of hashing.rs siphash24 (lines 100-113); returns
the state and the remaining bytes. -/
def sipDataChunks (st : SipState) : List Nat → SipState × List Nat
  | b0 :: b1 :: b2 :: b3 :: b4 :: b5 :: b6 :: b7 :: rest =>
    sipDataChunks
      (sipCompress st
        (b0 ||| (b1 <<< 8) ||| (b2 <<< 16) ||| (b3 <<< 24) ||| (b4 <<< 32) |||
          (b5 <<< 40) ||| (b6 <<< 48) ||| (b7 <<< 56)))
      rest
  | rest => (st, rest)

/-- The little-endian accumulation of the remaining bytes of hashing.rs
siphash24 (lines 116-121). -/
def tailWord (rest : List Nat) : Nat :=
  (rest.foldl (fun p b => (p.1 ||| (b <<< p.2), p.2 + 8)) (0, 0)).1

/-- SipHash::siphash24 (src/cuckatoo-core/src/hashing.rs lines 89-139):
a SipHash-2-4 over the header bytes, with the nonce xored into state 3
and the edge index xored into state 2 up front and the low byte of the
edge index folded into the final message word. -/
def SipHash.siphash24 (h : SipHash) (data : List Nat)
    (nonce edge_index : Nat) : Nat :=
  let st := SipState.mk h.key.k0 h.key.k1 (h.key.k2 ^^^ edge_index)
    (h.key.k3 ^^^ nonce)
  let p := sipDataChunks st data
  let m := tailWord p.2 ||| ((edge_index &&& 255) <<< 56)
  let st := sipCompress p.1 m
  let st := SipState.mk st.s0 st.s1 (st.s2 ^^^ 255) st.s3
  let st := sip_round (sip_round (sip_round (sip_round st)))
  st.s0 ^^^ st.s1 ^^^ st.s2 ^^^ st.s3

/-- The derived Ord on Edge (lexicographic on u then v), as a Bool. -/
def edgeLe (a b : Edge) : Bool :=
  a.u < b.u || (a.u == b.u && a.v ≤ b.v)

/-- Sorted insertion used to model Vec::sort on edges. -/
def insertEdgeSorted (e : Edge) : List Edge → List Edge
  | [] => [e]
  | x :: xs => if edgeLe e x then e :: x :: xs else x :: insertEdgeSorted e xs

/-- Insertion sort modelling the (stable) Vec::sort on edges. -/
def sortEdges : List Edge → List Edge
  | [] => []
  | x :: xs => insertEdgeSorted x (sortEdges xs)

/-- SipHash::hash_header (src/cuckatoo-core/src/hashing.rs lines 41-81):
reject edge_bits outside 10..=32 first, then generate, deduplicate and
sort the edges. -/
def SipHash.hash_header (h : SipHash) (header_bytes : List Nat)
    (header_nonce : Nat) (edge_bits : Nat) :
    Except CuckatooError (List Edge) :=
  if edge_bits < 10 ∨ edge_bits > 32 then
    Except.error (CuckatooError.InvalidEdgeBits edge_bits)
  else
    let edge_count := 2 ^ edge_bits
    let node_count := 2 ^ (edge_bits - 1)
    let p := (List.range edge_count).foldl
      (fun (p : List Edge × List Edge) i =>
        let hash_u := SipHash.siphash24 h header_bytes header_nonce (2 * i)
        let hash_v := SipHash.siphash24 h header_bytes header_nonce (2 * i + 1)
        let u := hash_u &&& (node_count - 1)
        let v := hash_v &&& (node_count - 1)
        let edge := if u < v then Edge.mk u v else Edge.mk v u
        if edge ∈ p.2 then p else (p.1 ++ [edge], p.2 ++ [edge]))
      ([], [])
    Except.ok (sortEdges p.1)

/-- Lookup in an association list modelling a Rust HashMap. -/
def alookup {α : Type} (m : List (Nat × α)) (k : Nat) : Option α :=
  (m.find? (fun p => p.1 == k)).map (fun p => p.2)

/-- HashMap::remove on the association-list model. -/
def aremove {α : Type} (m : List (Nat × α)) (k : Nat) : List (Nat × α) :=
  m.filter (fun p => ! (p.1 == k))

/-- HashMap::insert (replacing) on the association-list model. -/
def ainsert {α : Type} (m : List (Nat × α)) (k : Nat) (v : α) :
    List (Nat × α) :=
  (k, v) :: aremove m k

/-- A newest-connection chain map: node value to the list of
NodeConnectionLink records (node, edge_index), newest first; the head's
previous_link is the tail (src/cuckatoo-core/src/hash_cycle_finder.rs
lines 11-16 and 21-22). -/
def ChainMap : Type := List (Nat × List (Nat × Nat))

/-- Write consecutive entries of a list into the solution buffer
starting at the given index. -/
def writeSeq : List Nat → Nat → List Nat → List Nat
  | sol, _, [] => sol
  | sol, i, x :: xs => writeSeq (sol.set i x) (i + 1) xs

/-- HashCycleFinder::get_solution_from_visited_nodes
(src/cuckatoo-core/src/hash_cycle_finder.rs lines 369-392), applied to
the visited-pair value sequences in the order the map iteration yields
them: up to 21 values from the first partition, then values from the
second partition while the index stays below 41, then the closing edge
index. -/
def get_solution_from_visited_nodes (uvals vvals : List Nat)
    (solution : List Nat) (last_edge_index : Nat) : List Nat :=
  let us := uvals.take 21
  let s1 := writeSeq solution 0 us
  let i1 := us.length
  let vs := vvals.take (41 - i1)
  let s2 := writeSeq s1 i1 vs
  let i2 := i1 + vs.length
  if i2 < 42 then s2.set i2 last_edge_index else s2

/-- Sorted insertion on Nat. -/
def insertNatSorted (e : Nat) : List Nat → List Nat
  | [] => [e]
  | x :: xs => if e ≤ x then e :: x :: xs else x :: insertNatSorted e xs

/-- Insertion sort modelling the slice sort of the solution array. -/
def sortNat : List Nat → List Nat
  | [] => []
  | x :: xs => insertNatSorted x (sortNat xs)

/-- The iteration-order parameter for the visited-pair maps: any function
producing the sequence of stored edge-index values of the map; Rust
HashMap iteration order is unspecified, so the finder is parametrized
over it. -/
def valuesOrd (m : List (Nat × Nat)) : List Nat := m.map (fun p => p.2)

/-- The skip-or-recurse loop over a connection chain inside
search_node_connections_first_partition
(src/cuckatoo-core/src/hash_cycle_finder.rs lines 290-321); recur is the
call into the second partition at cycle_size + 1. -/
def searchLinksFirst (vN : ChainMap) (root cs : Nat)
    (recur : Nat → Nat → List (Nat × Nat) → List (Nat × Nat) →
      Bool × List (Nat × Nat) × List (Nat × Nat)) :
    List (Nat × Nat) → List (Nat × Nat) → List (Nat × Nat) →
      Bool × List (Nat × Nat) × List (Nat × Nat)
  | [], uV, vV => (false, uV, vV)
  | (cnode, cedge) :: rest, uV, vV =>
    let cpi := (cnode + 1) >>> 1
    if (alookup vV cpi).isSome then
      searchLinksFirst vN root cs recur rest uV vV
    else if cnode ^^^ 1 == root then
      (if cs == 41 then (true, uV, ainsert vV cpi cedge)
       else searchLinksFirst vN root cs recur rest uV vV)
    else if cs != 41 then
      (if (alookup vN (cnode ^^^ 1)).isSome then
        match recur (cnode ^^^ 1) cedge uV vV with
        | (true, u2, v2) => (true, u2, v2)
        | (false, u2, v2) => searchLinksFirst vN root cs recur rest u2 v2
       else searchLinksFirst vN root cs recur rest uV vV)
    else searchLinksFirst vN root cs recur rest uV vV

/-- The skip-or-recurse loop over a connection chain inside
search_node_connections_second_partition
(src/cuckatoo-core/src/hash_cycle_finder.rs lines 346-359); recur is the
call into the first partition at cycle_size + 1. -/
def searchLinksSecond (uN : ChainMap)
    (recur : Nat → Nat → List (Nat × Nat) → List (Nat × Nat) →
      Bool × List (Nat × Nat) × List (Nat × Nat)) :
    List (Nat × Nat) → List (Nat × Nat) → List (Nat × Nat) →
      Bool × List (Nat × Nat) × List (Nat × Nat)
  | [], uV, vV => (false, uV, vV)
  | (cnode, cedge) :: rest, uV, vV =>
    if (alookup uN (cnode ^^^ 1)).isSome then
      (if (alookup uV (cnode >>> 1)).isNone then
        match recur (cnode ^^^ 1) cedge uV vV with
        | (true, u2, v2) => (true, u2, v2)
        | (false, u2, v2) => searchLinksSecond uN recur rest u2 v2
       else searchLinksSecond uN recur rest uV vV)
    else searchLinksSecond uN recur rest uV vV

mutual

/-- HashCycleFinder::search_node_connections_first_partition
(src/cuckatoo-core/src/hash_cycle_finder.rs lines 275-328), with a fuel
bound on the recursion depth (the Rust code is bounded by the finitely
many unvisited pairs); returns the found flag and the two visited-pair
maps. -/
def search_node_connections_first_partition (uN vN : ChainMap)
    (root : Nat) :
    Nat → Nat → Nat → Nat → List (Nat × Nat) → List (Nat × Nat) →
      Bool × List (Nat × Nat) × List (Nat × Nat)
  | 0, _, _, _, uV, vV => (false, uV, vV)
  | fuel + 1, cs, node, idx, uV, vV =>
    let vpi := node >>> 1
    match searchLinksFirst vN root cs
        (fun n i u v =>
          search_node_connections_second_partition uN vN root fuel
            (cs + 1) n i u v)
        ((alookup uN node).getD []) (ainsert uV vpi idx) vV with
    | (true, u2, v2) => (true, u2, v2)
    | (false, u2, v2) => (false, aremove u2 vpi, v2)

/-- HashCycleFinder::search_node_connections_second_partition
(src/cuckatoo-core/src/hash_cycle_finder.rs lines 331-366). -/
def search_node_connections_second_partition (uN vN : ChainMap)
    (root : Nat) :
    Nat → Nat → Nat → Nat → List (Nat × Nat) → List (Nat × Nat) →
      Bool × List (Nat × Nat) × List (Nat × Nat)
  | 0, _, _, _, uV, vV => (false, uV, vV)
  | fuel + 1, cs, node, idx, uV, vV =>
    let vpi := node >>> 1
    match searchLinksSecond uN
        (fun n i u v =>
          search_node_connections_first_partition uN vN root fuel
            (cs + 1) n i u v)
        ((alookup vN node).getD []) uV (ainsert vV vpi idx) with
    | (true, u2, v2) => (true, u2, v2)
    | (false, u2, v2) => (false, u2, aremove v2 vpi)

end

/-- The connections loop of the first-partition branch of the main cycle
search (src/cuckatoo-core/src/hash_cycle_finder.rs lines 116-157). -/
def connLoopU (ordU ordV : List (Nat × Nat) → List Nat)
    (uN vN : ChainMap) (root searchFuel cs : Nat) :
    List (Nat × Nat) → List (Nat × Nat) → List (Nat × Nat) → List Nat →
      Bool × List Nat
  | [], _, _, solution => (false, solution)
  | (cnode, cedge) :: rest, uV, vV, solution =>
    let cpi := (cnode + 1) >>> 1
    if (alookup vV cpi).isNone then
      if cnode ^^^ 1 == root then
        (if cs == 41 then
          (true, sortNat (get_solution_from_visited_nodes (ordU uV) (ordV vV)
            solution cedge))
         else connLoopU ordU ordV uN vN root searchFuel cs rest uV vV solution)
      else if cs != 41 then
        (if (alookup vN (cnode ^^^ 1)).isSome then
          match search_node_connections_second_partition uN vN root
              searchFuel (cs + 1) (cnode ^^^ 1) cedge uV vV with
          | (true, u2, v2) =>
            (true, sortNat (get_solution_from_visited_nodes (ordU u2) (ordV v2)
              solution 0))
          | (false, u2, v2) =>
            connLoopU ordU ordV uN vN root searchFuel cs rest u2 v2 solution
         else connLoopU ordU ordV uN vN root searchFuel cs rest uV vV solution)
      else connLoopU ordU ordV uN vN root searchFuel cs rest uV vV solution
    else connLoopU ordU ordV uN vN root searchFuel cs rest uV vV solution

/-- The connections loop of the second-partition branch of the main cycle
search (src/cuckatoo-core/src/hash_cycle_finder.rs lines 216-236). -/
def connLoopV (ordU ordV : List (Nat × Nat) → List Nat)
    (uN vN : ChainMap) (root searchFuel cs : Nat) :
    List (Nat × Nat) → List (Nat × Nat) → List (Nat × Nat) → List Nat →
      Bool × List Nat
  | [], _, _, solution => (false, solution)
  | (cnode, cedge) :: rest, uV, vV, solution =>
    if (alookup uN (cnode ^^^ 1)).isSome then
      (if (alookup uV (cnode >>> 1)).isNone then
        match search_node_connections_first_partition uN vN root
            searchFuel (cs + 2) (cnode ^^^ 1) cedge uV vV with
        | (true, u2, v2) =>
          (true, sortNat (get_solution_from_visited_nodes (ordU u2) (ordV v2)
            solution 0))
        | (false, u2, v2) =>
          connLoopV ordU ordV uN vN root searchFuel cs rest u2 v2 solution
       else connLoopV ordU ordV uN vN root searchFuel cs rest uV vV solution)
    else connLoopV ordU ordV uN vN root searchFuel cs rest uV vV solution

/-- The main cycle-search loop entered when a newly inserted edge closes
both pair conditions (src/cuckatoo-core/src/hash_cycle_finder.rs lines
96-263), with a fuel bound on its iteration count. -/
def cycleLoop (ordU ordV : List (Nat × Nat) → List Nat)
    (uN vN : ChainMap) (root : Nat) :
    Nat → Nat → Nat → Nat → List (Nat × Nat) → List (Nat × Nat) →
      List Nat → Bool × List Nat
  | 0, _, _, _, _, _, solution => (false, solution)
  | fuel + 1, cs, cn, ci, uV, vV, solution =>
    let uV := ainsert uV (cn >>> 1) ci
    match alookup uN (cn ^^^ 1) with
    | none => (false, solution)
    | some chain =>
      match chain with
      | [] => (false, solution)
      | (n0, e0) :: chainRest =>
        if chainRest.length > 0 then
          connLoopU ordU ordV uN vN root fuel cs chain uV vV solution
        else
          let ci := e0
          let cn := n0
          if (alookup vV (cn >>> 1)).isSome then (false, solution)
          else if cn ^^^ 1 == root then
            (if cs == 41 then
              (true, sortNat (get_solution_from_visited_nodes (ordU uV)
                (ordV vV) solution ci))
             else (false, solution))
          else if cs == 41 then (false, solution)
          else if (alookup vN (cn ^^^ 1)).isNone then (false, solution)
          else
            let vV := ainsert vV (cn >>> 1) ci
            match alookup vN (cn ^^^ 1) with
            | none => (false, solution)
            | some vchain =>
              match vchain with
              | [] => (false, solution)
              | (n1, e1) :: vchainRest =>
                if vchainRest.length > 0 then
                  connLoopV ordU ordV uN vN root fuel cs vchain uV vV solution
                else
                  let ci := e1
                  let cn := n1
                  if (alookup uV (cn >>> 1)).isSome then (false, solution)
                  else if (alookup uN (cn ^^^ 1)).isNone then (false, solution)
                  else
                    cycleLoop ordU ordV uN vN root fuel (cs + 2) cn ci uV vV
                      solution

/-- The edge-insertion loop of HashCycleFinder::get_cuckatoo_solution
(src/cuckatoo-core/src/hash_cycle_finder.rs lines 57-269): one iteration
per (edge_index, node_u, node_v) triple; insert the two newest
connections, and when both pair conditions hold run the cycle search
with freshly cleared visited-pair maps. -/
def finderMainLoop (ordU ordV : List (Nat × Nat) → List Nat) (fuel : Nat) :
    List (Nat × Nat × Nat) → ChainMap → ChainMap → List Nat →
      Bool × List Nat
  | [], _, _, solution => (false, solution)
  | (index, node, root) :: rest, uN, vN, solution =>
    let uN1 := ainsert uN node ((node, index) :: (alookup uN node).getD [])
    let vN1 := ainsert vN root ((root, index) :: (alookup vN root).getD [])
    if (alookup uN1 (node ^^^ 1)).isSome &&
        (alookup vN1 (root ^^^ 1)).isSome then
      match cycleLoop ordU ordV uN1 vN1 root fuel 1 node index [] []
          solution with
      | (true, sol2) => (true, sol2)
      | (false, _) => finderMainLoop ordU ordV fuel rest uN1 vN1 solution
    else finderMainLoop ordU ordV fuel rest uN1 vN1 solution

/-- HashCycleFinder::get_cuckatoo_solution
(src/cuckatoo-core/src/hash_cycle_finder.rs lines 52-272) over the edge
triples, parametrized by the visited-map iteration orders; returns the
found flag and the (possibly updated) solution buffer.  The fuel bounds
loop iterations and recursion depth; it is immaterial because every
search path fails regardless of fuel. -/
def get_cuckatoo_solution (ordU ordV : List (Nat × Nat) → List Nat)
    (solution : List Nat) (edges : List (Nat × Nat × Nat)) :
    Bool × List Nat :=
  finderMainLoop ordU ordV (2 * edges.length + 64) edges [] [] solution

/-- HashCycleFinder::find_cycle
(src/cuckatoo-core/src/hash_cycle_finder.rs lines 395-426), parametrized
by the visited-map iteration orders (the Ok wrapper of the never-failing
Result is dropped). -/
def find_cycle_ord (ordU ordV : List (Nat × Nat) → List Nat)
    (edges : List Edge) : Option (List Nat) :=
  let cpp_edges := edges.mapIdx (fun i e => (i, e.u, e.v))
  let p := get_cuckatoo_solution ordU ordV (List.replicate 42 0) cpp_edges
  if p.1 then some p.2 else none

/-- HashCycleFinder::find_cycle with the insertion-order values
iteration. -/
def find_cycle (edges : List Edge) : Option (List Nat) :=
  find_cycle_ord valuesOrd valuesOrd edges

/-- The full core pipeline on one attempt: derive the keys with blake2b,
trim with the ExactTrimmer, search the survivors with the hash cycle
finder. -/
def runCore (ordU ordV : List (Nat × Nat) → List Nat)
    (header : List Nat) (nonce edge_bits trimming_rounds : Nat) :
    Option (List Nat) :=
  let keys := blake2b header nonce
  let sip := ExactSipHash.mk keys edge_bits
  let survivors :=
    ExactTrimmer.trim_edges sip (ExactTrimmer.new edge_bits) trimming_rounds
  find_cycle_ord ordU ordV survivors

/-- Well-formedness of a chain map: every link stored under key k
carries node value k (true by construction: links are inserted under
their own node). -/
def chainsOk (m : ChainMap) : Prop :=
  ∀ k c, alookup m k = some c → ∀ p ∈ c, p.1 = k

/-- Fixed keys used by the concrete counterexamples and witnesses. -/
def testKeys : SipKeys :=
  SipKeys.mk 0x1234567890abcdef 0xfedcba0987654321
    0x1111222233334444 0x5555666677778888

end Cuckatoo

/-! ## Helper lemmas -/

namespace Cuckatoo

theorem natSub_refl (a : Nat) : natSub a a := fun _ h => h

theorem natSub_zero (b : Nat) : natSub 0 b := by
  intro j h
  simp at h

theorem natSub_trans {a b c : Nat} (h1 : natSub a b) (h2 : natSub b c) :
    natSub a c := fun j h => h2 j (h1 j h)

theorem natSub_land_left (a b : Nat) : natSub (a &&& b) a := by
  intro j h
  rw [Nat.testBit_and] at h
  exact (Bool.and_eq_true _ _ |>.mp h).1

theorem natSub_or_intro {a b c : Nat} (h1 : natSub a c) (h2 : natSub b c) :
    natSub (a ||| b) c := by
  intro j h
  rw [Nat.testBit_or] at h
  rcases Bool.or_eq_true _ _ |>.mp h with h | h
  · exact h1 j h
  · exact h2 j h

theorem natSub_xor_intro {a b c : Nat} (h1 : natSub a c) (h2 : natSub b c) :
    natSub (a ^^^ b) c := by
  intro j h
  rw [Nat.testBit_xor] at h
  by_cases ha : a.testBit j = true
  · exact h1 j ha
  · apply h2 j
    cases hb : b.testBit j
    · rw [Bool.not_eq_true] at ha
      rw [ha, hb] at h
      simp at h
    · rfl

theorem natSub_shl_one {w bi : Nat} (h : w.testBit bi = true) :
    natSub (1 <<< bi) w := by
  intro j hj
  rw [Nat.shiftLeft_eq, one_mul, Nat.testBit_two_pow] at hj
  have : bi = j := of_decide_eq_true hj
  subst this
  exact h

theorem foldl_natSub {α : Type} {w : Nat} (f : Nat → α → Nat)
    (hf : ∀ acc x, natSub acc w → natSub (f acc x) w) :
    ∀ (l : List α) (acc : Nat), natSub acc w → natSub (l.foldl f acc) w := by
  intro l
  induction l with
  | nil => intro acc h; exact h
  | cons x xs ih => intro acc h; exact ih _ (hf _ _ h)

theorem natSub_eq_zero {a : Nat} (h : natSub a 0) : a = 0 := by
  apply Nat.eq_of_testBit_eq
  intro i
  rw [Nat.zero_testBit]
  cases hb : a.testBit i
  · rfl
  · have := h i hb
    simp at this

theorem natSub_le {a b : Nat} (h : natSub a b) : a ≤ b := by
  induction b using Nat.strong_induction_on generalizing a with
  | _ b ih =>
    cases b with
    | zero => rw [natSub_eq_zero h]
    | succ m =>
      have hdiv : natSub (a / 2) ((m + 1) / 2) := by
        intro j hj
        rw [Nat.testBit_div_two] at hj ⊢
        exact h _ hj
      have hmod : a % 2 ≤ (m + 1) % 2 := by
        rcases Nat.mod_two_eq_zero_or_one a with h0 | h1
        · omega
        · have h2 : a.testBit 0 = true := by
            rw [Nat.testBit_zero]
            exact decide_eq_true h1
          have h3 := h 0 h2
          rw [Nat.testBit_zero] at h3
          have := of_decide_eq_true h3
          omega
      have := ih ((m + 1) / 2) (Nat.div_lt_self (Nat.succ_pos m) (by omega)) hdiv
      omega

theorem length_filter_mono {p q : Nat → Bool}
    (h : ∀ i, p i = true → q i = true) (l : List Nat) :
    (l.filter p).length ≤ (l.filter q).length := by
  induction l with
  | nil => exact Nat.le_refl _
  | cons x xs ih =>
    rw [List.filter_cons, List.filter_cons]
    by_cases hp : p x = true
    · rw [if_pos hp, if_pos (h x hp)]
      simp only [List.length_cons]
      omega
    · rw [if_neg hp]
      split
      · rw [List.length_cons]
        exact Nat.le_succ_of_le ih
      · exact ih

theorem popcountWord_mono {a b : Nat} (h : natSub a b) :
    popcountWord a ≤ popcountWord b :=
  length_filter_mono h _

theorem bitmapSub_getD {a b : List Nat} (h : bitmapSub a b) (i : Nat) :
    natSub (a.getD i 0) (b.getD i 0) := by
  induction h generalizing i with
  | nil => exact natSub_refl _
  | cons hab _ ih =>
    cases i with
    | zero => exact hab
    | succ j => exact ih j

theorem bitmapSub_length {a b : List Nat} (h : bitmapSub a b) :
    a.length = b.length := h.length_eq

theorem bitmapSub_refl (a : List Nat) : bitmapSub a a := by
  induction a with
  | nil => exact List.Forall₂.nil
  | cons x xs ih => exact List.Forall₂.cons (natSub_refl x) ih

theorem bitmapSub_trans {a b c : List Nat} (h1 : bitmapSub a b)
    (h2 : bitmapSub b c) : bitmapSub a c := by
  induction h1 generalizing c with
  | nil => cases h2; exact List.Forall₂.nil
  | cons hab _ ih =>
    cases h2 with
    | cons hbc h2t => exact List.Forall₂.cons (natSub_trans hab hbc) (ih h2t)

theorem popcountBitmap_mono {a b : List Nat} (h : bitmapSub a b) :
    popcountBitmap a ≤ popcountBitmap b := by
  induction h with
  | nil => exact Nat.le_refl _
  | cons hab _ ih =>
    exact Nat.add_le_add (popcountWord_mono hab) ih

theorem mapIdx_bitmapSub (g : Nat → Nat → Nat) (l : List Nat)
    (hg : ∀ i w, w ∈ l → natSub (g i w) w) :
    bitmapSub (l.mapIdx g) l := by
  induction l generalizing g with
  | nil => exact List.Forall₂.nil
  | cons x xs ih =>
    rw [List.mapIdx_cons]
    exact List.Forall₂.cons (hg 0 x (List.mem_cons_self x xs))
      (ih _ (fun i w hw => hg (i + 1) w (List.mem_cons_of_mem x hw)))

theorem wordsLt_of_sub {a b : List Nat} (hs : bitmapSub a b)
    (hb : wordsLt b) : wordsLt a := by
  induction hs with
  | nil => intro w hw; simp at hw
  | cons hab _ ih =>
    intro w hw
    rcases List.mem_cons.mp hw with h | h
    · subst h
      exact Nat.lt_of_le_of_lt (natSub_le hab)
        (hb _ (List.mem_cons_self _ _))
    · exact ih (fun x hx => hb x (List.mem_cons_of_mem _ hx)) w h

theorem testBit_ctzAux :
    ∀ (fuel n : Nat), n ≠ 0 → n < 2 ^ fuel →
      n.testBit (ctzAux fuel n) = true := by
  intro fuel
  induction fuel with
  | zero => intro n hn hlt; omega
  | succ f ih =>
    intro n hn hlt
    rw [ctzAux]
    split
    · rw [Nat.testBit_zero]
      exact decide_eq_true (by assumption)
    · rename_i he
      rw [Nat.testBit_add_one]
      have hmod : n % 2 = 0 := by omega
      have hp : 2 ^ (f + 1) = 2 * 2 ^ f := by
        rw [Nat.pow_succ]
        omega
      exact ih (n / 2) (by omega) (by omega)

theorem testBit_ctz {n : Nat} (h : n ≠ 0) (hlt : n < 2 ^ 64) :
    n.testBit (ctz n) = true :=
  testBit_ctzAux 64 n h hlt

theorem tzFold_sub {f : Nat → Nat → Nat → Nat} {w0 : Nat}
    (hw : w0 < 2 ^ 64)
    (hf : ∀ acc bi bp, natSub acc w0 → w0.testBit bp = true →
      natSub (f acc bi bp) w0) :
    ∀ (fuel unit bi acc : Nat), natSub unit w0 → natSub acc w0 →
      natSub (tzFold f fuel unit bi acc) w0 := by
  intro fuel
  induction fuel with
  | zero => intro unit bi acc _ hacc; exact hacc
  | succ n ih =>
    intro unit bi acc hu hacc
    rw [tzFold]
    split
    · exact hacc
    · rename_i hz
      have hunz : unit ≠ 0 := by
        intro h0
        rw [h0] at hz
        simp at hz
      have hult : unit < 2 ^ 64 := Nat.lt_of_le_of_lt (natSub_le hu) hw
      exact ih _ _ _ (natSub_trans (natSub_land_left unit (unit - 1)) hu)
        (hf _ _ _ hacc (hu _ (testBit_ctz hunz hult)))

theorem exact_step_two_sub (sip : ExactSipHash) (t : ExactTrimmer) :
    bitmapSub (ExactTrimmer.trim_edges_step_two sip t).edges_bitmap
      t.edges_bitmap := by
  apply mapIdx_bitmapSub
  intro i w _
  apply foldl_natSub _ _ _ _ (natSub_zero w)
  intro acc bi hacc
  dsimp only
  split
  · rename_i hw
    split
    · split
      · exact natSub_or_intro hacc (natSub_shl_one hw)
      · exact hacc
    · exact hacc
  · exact hacc

theorem exact_step_four_sub (sip : ExactSipHash) (t : ExactTrimmer) :
    bitmapSub (ExactTrimmer.trim_edges_step_four sip t).edges_bitmap
      t.edges_bitmap := by
  apply mapIdx_bitmapSub
  intro i w _
  apply foldl_natSub _ _ _ _ (natSub_refl w)
  intro acc bi hacc
  dsimp only
  split
  · rename_i hw
    split
    · split
      · exact natSub_xor_intro hacc (natSub_shl_one hw)
      · exact hacc
    · exact hacc
  · exact hacc

theorem exact_applyRound_sub (sip : ExactSipHash) (t : ExactTrimmer)
    (r : Nat) :
    bitmapSub (ExactTrimmer.applyRound sip t r).edges_bitmap
      t.edges_bitmap := by
  unfold ExactTrimmer.applyRound
  split
  · exact exact_step_two_sub sip _
  · exact exact_step_four_sub sip _

theorem exact_runRounds_succ (sip : ExactSipHash) (t : ExactTrimmer)
    (n : Nat) :
    ExactTrimmer.runRounds sip t (n + 1) =
      ExactTrimmer.applyRound sip (ExactTrimmer.runRounds sip t n) n := by
  unfold ExactTrimmer.runRounds
  rw [List.range_succ, List.foldl_append, List.foldl_cons, List.foldl_nil]

theorem exact_runRounds_sub (sip : ExactSipHash) (t : ExactTrimmer)
    (r : Nat) :
    ∀ k, bitmapSub (ExactTrimmer.runRounds sip t (r + k)).edges_bitmap
      (ExactTrimmer.runRounds sip t r).edges_bitmap
  | 0 => bitmapSub_refl _
  | k + 1 => by
    rw [← Nat.add_assoc, exact_runRounds_succ]
    exact bitmapSub_trans (exact_applyRound_sub sip _ _)
      (exact_runRounds_sub sip t r k)

theorem bitmap_step_two_sub (key : SipKeys) (t : BitmapTrimmer)
    (hb : wordsLt t.edges_bitmap) :
    bitmapSub (BitmapTrimmer.trim_edges_step_two key t).edges_bitmap
      t.edges_bitmap := by
  apply mapIdx_bitmapSub
  intro i w hw
  dsimp only
  split
  · exact natSub_refl w
  · apply tzFold_sub (hb w hw) _ _ _ _ _ (natSub_refl w) (natSub_zero w)
    intro acc bi bp hacc hbp
    dsimp only
    split
    · split
      · exact natSub_or_intro hacc (natSub_shl_one hbp)
      · exact hacc
    · exact hacc

theorem bitmap_step_four_sub (key : SipKeys) (t : BitmapTrimmer)
    (hb : wordsLt t.edges_bitmap) :
    bitmapSub (BitmapTrimmer.trim_edges_step_four key t).edges_bitmap
      t.edges_bitmap := by
  apply mapIdx_bitmapSub
  intro i w hw
  dsimp only
  split
  · exact natSub_refl w
  · apply tzFold_sub (hb w hw) _ _ _ _ _ (natSub_refl w) (natSub_zero w)
    intro acc bi bp hacc hbp
    dsimp only
    split
    · split
      · exact natSub_or_intro hacc (natSub_shl_one hbp)
      · exact hacc
    · exact hacc

theorem bitmap_applyRound_sub (key : SipKeys) (t : BitmapTrimmer)
    (r : Nat) (hb : wordsLt t.edges_bitmap) :
    bitmapSub (BitmapTrimmer.applyRound key t r).edges_bitmap
      t.edges_bitmap := by
  unfold BitmapTrimmer.applyRound
  split
  · exact bitmap_step_two_sub key _ hb
  · exact bitmap_step_four_sub key _ hb

theorem bitmap_runRounds_succ (key : SipKeys) (t : BitmapTrimmer)
    (n : Nat) :
    BitmapTrimmer.runRounds key t (n + 1) =
      BitmapTrimmer.applyRound key (BitmapTrimmer.runRounds key t n) n := by
  unfold BitmapTrimmer.runRounds
  rw [List.range_succ, List.foldl_append, List.foldl_cons, List.foldl_nil]

theorem bitmap_runRounds_wordsLt (key : SipKeys) (t : BitmapTrimmer)
    (hb : wordsLt t.edges_bitmap) :
    ∀ n, wordsLt (BitmapTrimmer.runRounds key t n).edges_bitmap
  | 0 => hb
  | n + 1 => by
    rw [bitmap_runRounds_succ]
    exact wordsLt_of_sub
      (bitmap_applyRound_sub key _ _ (bitmap_runRounds_wordsLt key t hb n))
      (bitmap_runRounds_wordsLt key t hb n)

theorem bitmap_runRounds_sub (key : SipKeys) (t : BitmapTrimmer)
    (hb : wordsLt t.edges_bitmap) (r : Nat) :
    ∀ k, bitmapSub (BitmapTrimmer.runRounds key t (r + k)).edges_bitmap
      (BitmapTrimmer.runRounds key t r).edges_bitmap
  | 0 => bitmapSub_refl _
  | k + 1 => by
    rw [← Nat.add_assoc, bitmap_runRounds_succ]
    exact bitmapSub_trans
      (bitmap_applyRound_sub key _ _ (bitmap_runRounds_wordsLt key t hb (r + k)))
      (bitmap_runRounds_sub key t hb r k)

theorem padOkB_iff (n : Nat) (bm : List Nat) :
    padOkB n bm = true ↔
      ∀ wi, wi < bm.length → ∀ bi, bi < 64 → n ≤ wi * 64 + bi →
        (bm.getD wi 0).testBit bi = false := by
  simp only [padOkB, List.all_eq_true, List.mem_range, Bool.or_eq_true,
    decide_eq_true_eq, Bool.not_eq_true']
  constructor
  · intro h wi hwi bi hbi hn
    rcases h wi hwi bi hbi with hlt | hfalse
    · omega
    · exact hfalse
  · intro h wi hwi bi hbi
    by_cases hlt : wi * 64 + bi < n
    · exact Or.inl hlt
    · exact Or.inr (h wi hwi bi hbi (by omega))

theorem padOkB_mono {n m : Nat} (hnm : n ≤ m) {bm : List Nat}
    (h : padOkB n bm = true) : padOkB m bm = true := by
  rw [padOkB_iff] at h ⊢
  intro wi hwi bi hbi hn
  exact h wi hwi bi hbi (by omega)

theorem padOkB_of_sub {n : Nat} {a b : List Nat} (hs : bitmapSub a b)
    (h : padOkB n b = true) : padOkB n a = true := by
  rw [padOkB_iff] at h ⊢
  intro wi hwi bi hbi hn
  cases hb : (a.getD wi 0).testBit bi
  · rfl
  · exfalso
    have hlen := bitmapSub_length hs
    have := bitmapSub_getD hs wi bi hb
    rw [h wi (by omega) bi hbi hn] at this
    exact Bool.false_ne_true this

theorem initBitmapList_length (N : Nat) (l : List Nat) :
    (initBitmapList N l).length = l.length := by
  unfold initBitmapList
  dsimp only
  split <;> simp

theorem wordsLt_initBitmapList (N : Nat) (l : List Nat) :
    wordsLt (initBitmapList N l) := by
  intro w hw
  unfold initBitmapList at hw
  dsimp only at hw
  rw [List.map_const'] at hw
  simp only [List.length_replicate] at hw
  split at hw
  · rcases List.mem_or_eq_of_mem_set hw with h | h
    · have := List.eq_of_mem_replicate h
      omega
    · subst h
      have hx : (List.replicate l.length ((2:Nat) ^ 64 - 1)).getD
          (l.length - 1) 0 ≤ 2 ^ 64 - 1 := by
        rw [List.getD_eq_getElem?_getD, List.getElem?_replicate]
        split
        · simp
        · simp
      have hle := natSub_le (natSub_land_left
        ((List.replicate l.length ((2:Nat) ^ 64 - 1)).getD (l.length - 1) 0)
        ((1 <<< (64 - (l.length * 64 - N))) - 1))
      omega
  · have := List.eq_of_mem_replicate hw
    omega

theorem padOkB_initBitmapList {N : Nat} (hN : 0 < N) (l : List Nat)
    (hlen : l.length = (N + 63) / 64) :
    padOkB N (initBitmapList N l) = true := by
  have hdm := Nat.div_add_mod (N + 63) 64
  have hml : (N + 63) % 64 < 64 := Nat.mod_lt _ (by omega)
  have hub : 64 * l.length ≤ N + 63 := by omega
  have hlb : N ≤ 64 * l.length := by omega
  rw [padOkB_iff]
  intro wi hwi bi hbi hn
  rw [initBitmapList_length] at hwi
  unfold initBitmapList
  rw [List.map_const']
  dsimp only
  simp only [List.length_replicate]
  split
  · rename_i hex
    rw [List.getD_eq_getElem?_getD, List.getElem?_set]
    split
    · rename_i heq
      rw [if_pos (by simp only [List.length_replicate]; omega)]
      simp only [Option.getD_some]
      rw [List.getD_eq_getElem?_getD, List.getElem?_replicate,
        if_pos (by omega)]
      simp only [Option.getD_some]
      rw [Nat.testBit_and, Nat.one_shiftLeft, Nat.testBit_two_pow_sub_one,
        Nat.testBit_two_pow_sub_one]
      have h1 : ¬ bi < 64 - (l.length * 64 - N) := by omega
      simp [h1]
    · rename_i hne
      rw [List.getElem?_replicate, if_pos hwi]
      simp only [Option.getD_some]
      exfalso
      have hwilt : wi < l.length - 1 := by omega
      omega
  · rename_i hex
    exfalso
    omega

theorem exact_traceGo_padOk (sip : ExactSipHash) (N : Nat) :
    ∀ (rs : List Nat) (t : ExactTrimmer),
      padOkB N t.edges_bitmap = true →
      ∀ s ∈ ExactTrimmer.traceGo sip t rs, padOkB N s.edges_bitmap = true := by
  intro rs
  induction rs with
  | nil => intro t _ s hs; simp [ExactTrimmer.traceGo] at hs
  | cons r rs ih =>
    intro t ht s hs
    rw [ExactTrimmer.traceGo, List.mem_append] at hs
    have happly : padOkB N (ExactTrimmer.applyRound sip t r).edges_bitmap = true :=
      padOkB_of_sub (exact_applyRound_sub sip t r) ht
    rcases hs with hs | hs
    · unfold ExactTrimmer.roundStates at hs
      split at hs <;>
        simp only [List.mem_cons, List.mem_singleton, List.not_mem_nil,
          or_false] at hs <;>
        rcases hs with hs | hs <;> subst hs
      · exact ht
      · exact padOkB_of_sub (exact_step_two_sub sip _) ht
      · exact ht
      · exact padOkB_of_sub (exact_step_four_sub sip _) ht
    · exact ih _ happly s hs

theorem bitmap_traceGo_padOk (key : SipKeys) (N : Nat) :
    ∀ (rs : List Nat) (t : BitmapTrimmer),
      wordsLt t.edges_bitmap →
      padOkB N t.edges_bitmap = true →
      ∀ s ∈ BitmapTrimmer.traceGo key t rs, padOkB N s.edges_bitmap = true := by
  intro rs
  induction rs with
  | nil => intro t _ _ s hs; simp [BitmapTrimmer.traceGo] at hs
  | cons r rs ih =>
    intro t hw ht s hs
    rw [BitmapTrimmer.traceGo, List.mem_append] at hs
    have hsub := bitmap_applyRound_sub key t r hw
    have happly : padOkB N (BitmapTrimmer.applyRound key t r).edges_bitmap = true :=
      padOkB_of_sub hsub ht
    rcases hs with hs | hs
    · unfold BitmapTrimmer.roundStates at hs
      split at hs <;>
        simp only [List.mem_cons, List.mem_singleton, List.not_mem_nil,
          or_false] at hs <;>
        rcases hs with hs | hs <;> subst hs
      · exact ht
      · exact padOkB_of_sub (bitmap_step_two_sub key _ hw) ht
      · exact ht
      · exact padOkB_of_sub (bitmap_step_four_sub key _ hw) ht
    · exact ih _ (wordsLt_of_sub hsub hw) happly s hs

theorem wrap32_pow {k : Nat} (h : k < 32) : wrap32 (1 <<< k) = 2 ^ k := by
  rw [Nat.one_shiftLeft, wrap32]
  exact Nat.mod_eq_of_lt (Nat.pow_lt_pow_right (by omega) h)

theorem wrap64_pow {k : Nat} (h : k < 64) : wrap64 (1 <<< k) = 2 ^ k := by
  rw [Nat.one_shiftLeft, wrap64]
  exact Nat.mod_eq_of_lt (Nat.pow_lt_pow_right (by omega) h)

theorem exact_new_number (eb : Nat) :
    (ExactTrimmer.new eb).number_of_edges = 2 ^ (eb % 32) :=
  wrap32_pow (Nat.mod_lt _ (by omega))

theorem bitmap_new_number (eb : Nat) :
    (BitmapTrimmer.new eb).number_of_edges = 2 ^ (eb % 64) :=
  wrap64_pow (Nat.mod_lt _ (by omega))

theorem exact_init_padOk (eb : Nat) :
    padOkB (2 ^ (eb % 32))
      (ExactTrimmer.initEdgesBitmap (ExactTrimmer.new eb)).edges_bitmap
      = true := by
  have h1 : (ExactTrimmer.initEdgesBitmap (ExactTrimmer.new eb)).edges_bitmap
      = initBitmapList (2 ^ (eb % 32)) (ExactTrimmer.new eb).edges_bitmap := by
    show initBitmapList (ExactTrimmer.new eb).number_of_edges _ = _
    rw [exact_new_number]
  rw [h1]
  apply padOkB_initBitmapList (Nat.pos_pow_of_pos _ (by omega))
  show (List.replicate ((wrap32 (1 <<< (eb % 32)) + 63) / 64) 0).length = _
  rw [List.length_replicate, wrap32_pow (Nat.mod_lt _ (by omega))]

theorem bitmap_init_padOk (eb : Nat) :
    padOkB (2 ^ (eb % 64))
      (BitmapTrimmer.generate_edges_bitmap (BitmapTrimmer.new eb)).edges_bitmap
      = true := by
  have h1 : (BitmapTrimmer.generate_edges_bitmap (BitmapTrimmer.new eb)).edges_bitmap
      = initBitmapList (2 ^ (eb % 64)) (BitmapTrimmer.new eb).edges_bitmap := by
    show initBitmapList (BitmapTrimmer.new eb).number_of_edges _ = _
    rw [bitmap_new_number]
  rw [h1]
  apply padOkB_initBitmapList (Nat.pos_pow_of_pos _ (by omega))
  show (List.replicate ((wrap64 (1 <<< (eb % 64)) + 63) / 64) 0).length = _
  rw [List.length_replicate, wrap64_pow (Nat.mod_lt _ (by omega))]

theorem alookup_ainsert_self {α : Type} (m : List (Nat × α)) (k : Nat)
    (v : α) : alookup (ainsert m k v) k = some v := by
  simp [alookup, ainsert, List.find?]

theorem find?_aremove_ne {α : Type} (m : List (Nat × α)) (k k' : Nat)
    (h : k' ≠ k) :
    (aremove m k).find? (fun p => p.1 == k') =
      m.find? (fun p => p.1 == k') := by
  induction m with
  | nil => rfl
  | cons x xs ih =>
    unfold aremove at ih ⊢
    rw [List.filter_cons]
    by_cases hx : x.1 = k
    · rw [if_neg (by simp [hx])]
      rw [ih, List.find?_cons_of_neg _ (by simp [hx]; omega)]
    · rw [if_pos (by simp [hx])]
      by_cases hk : x.1 = k'
      · rw [List.find?_cons_of_pos _ (by simp [hk]),
          List.find?_cons_of_pos _ (by simp [hk])]
      · rw [List.find?_cons_of_neg _ (by simp [hk]),
          List.find?_cons_of_neg _ (by simp [hk])]
        exact ih

theorem alookup_ainsert_ne {α : Type} (m : List (Nat × α)) (k k' : Nat)
    (v : α) (h : k' ≠ k) :
    alookup (ainsert m k v) k' = alookup m k' := by
  simp only [alookup, ainsert]
  rw [List.find?_cons_of_neg _ (by simp [Ne.symm h])]
  rw [find?_aremove_ne m k k' h]

theorem chainsOk_nil : chainsOk [] := by
  intro k c h p hp
  simp [alookup] at h

theorem chainsOk_insert {m : ChainMap} (hm : chainsOk m) (k e : Nat) :
    chainsOk (ainsert m k ((k, e) :: (alookup m k).getD [])) := by
  intro k' c h p hp
  by_cases hk : k' = k
  · subst hk
    rw [alookup_ainsert_self] at h
    rw [Option.some.injEq] at h
    subst h
    rcases List.mem_cons.mp hp with h1 | h1
    · subst h1; rfl
    · cases hop : alookup m k' with
      | none => rw [hop] at h1; simp at h1
      | some old =>
        rw [hop] at h1
        exact hm k' old hop p h1
  · rw [alookup_ainsert_ne _ _ _ _ hk] at h
    exact hm k' c h p hp

theorem xor_one_xor_one (n : Nat) : (n ^^^ 1) ^^^ 1 = n := by
  rw [Nat.xor_assoc]
  simp

theorem xor_one_shiftRight (n : Nat) : (n ^^^ 1) >>> 1 = n >>> 1 := by
  apply Nat.eq_of_testBit_eq
  intro j
  rw [Nat.testBit_shiftRight, Nat.testBit_shiftRight, Nat.testBit_xor]
  have h1 : (1 : Nat).testBit (1 + j) = false := by
    rw [show (1 : Nat) = 2 ^ 0 by rfl, Nat.testBit_two_pow]
    simp only [decide_eq_false_iff_not]
    omega
  rw [h1]
  simp

theorem searchLinksSecond_skip (uN : ChainMap)
    (recur : Nat → Nat → List (Nat × Nat) → List (Nat × Nat) →
      Bool × List (Nat × Nat) × List (Nat × Nat)) (node : Nat) :
    ∀ (links : List (Nat × Nat)) (uV vV : List (Nat × Nat)),
      (∀ p ∈ links, p.1 = node) →
      (alookup uV (node >>> 1)).isSome = true →
      searchLinksSecond uN recur links uV vV = (false, uV, vV) := by
  intro links
  induction links with
  | nil => intro uV vV _ _; rfl
  | cons x xs ih =>
    intro uV vV hall hsome
    obtain ⟨cnode, cedge⟩ := x
    have hcn : cnode = node := hall _ (List.mem_cons_self _ _)
    subst hcn
    rw [searchLinksSecond]
    have hrest : ∀ p ∈ xs, p.1 = cnode :=
      fun p hp => hall p (List.mem_cons_of_mem _ hp)
    obtain ⟨v, hv⟩ := Option.isSome_iff_exists.mp hsome
    split
    · rw [if_neg (by rw [hv]; simp)]
      exact ih _ _ hrest hsome
    · exact ih _ _ hrest hsome

theorem search_second_fail (uN vN : ChainMap) (root : Nat)
    (hvN : chainsOk vN) (fuel cs node idx : Nat)
    (uV vV : List (Nat × Nat))
    (hsome : (alookup uV (node >>> 1)).isSome = true) :
    (search_node_connections_second_partition uN vN root fuel cs node idx
      uV vV).1 = false ∧
    (search_node_connections_second_partition uN vN root fuel cs node idx
      uV vV).2.1 = uV := by
  cases fuel with
  | zero =>
    simp [search_node_connections_second_partition]
  | succ f =>
    simp only [search_node_connections_second_partition]
    cases hchain : alookup vN node with
    | none =>
      rw [show (Option.getD (none : Option (List (Nat × Nat))) []) = []
        from rfl]
      rw [searchLinksSecond_skip uN _ node [] uV _ (by intro p hp; simp at hp)
        hsome]
      exact ⟨rfl, rfl⟩
    | some chain =>
      have hall := hvN node chain hchain
      rw [show Option.getD (some chain) [] = chain from rfl]
      rw [searchLinksSecond_skip uN _ node chain uV _ hall hsome]
      exact ⟨rfl, rfl⟩

theorem connLoopU_fail (ordU ordV : List (Nat × Nat) → List Nat)
    (uN vN : ChainMap) (root sf : Nat) (hvN : chainsOk vN) (u : Nat) :
    ∀ (links : List (Nat × Nat)) (cs : Nat), cs ≠ 41 →
      (∀ p ∈ links, p.1 = u ^^^ 1) →
      ∀ (uV vV : List (Nat × Nat)) (sol : List Nat),
        (alookup uV (u >>> 1)).isSome = true →
        (connLoopU ordU ordV uN vN root sf cs links uV vV sol).1 = false := by
  intro links
  induction links with
  | nil => intro cs _ _ uV vV sol _; rfl
  | cons x xs ih =>
    intro cs hcs hall uV vV sol hsome
    obtain ⟨cnode, cedge⟩ := x
    have hcn : cnode = u ^^^ 1 := hall _ (List.mem_cons_self _ _)
    subst hcn
    have hrest : ∀ p ∈ xs, p.1 = u ^^^ 1 :=
      fun p hp => hall p (List.mem_cons_of_mem _ hp)
    rw [connLoopU]
    split
    · split
      · rw [if_neg (by simp [hcs])]
        exact ih cs hcs hrest uV vV sol hsome
      · split
        · split
          · have hsome2 :
                (alookup uV (((u ^^^ 1) ^^^ 1) >>> 1)).isSome = true := by
              rw [xor_one_xor_one]
              exact hsome
            have hfail := search_second_fail uN vN root hvN sf (cs + 1)
              ((u ^^^ 1) ^^^ 1) cedge uV vV hsome2
            rcases hres : search_node_connections_second_partition uN vN root
                sf (cs + 1) ((u ^^^ 1) ^^^ 1) cedge uV vV with ⟨b, u2, v2⟩
            rw [hres] at hfail
            obtain ⟨hb, hu2⟩ := hfail
            simp only at hb hu2
            subst hb
            subst hu2
            exact ih cs hcs hrest u2 v2 sol hsome
          · exact ih cs hcs hrest uV vV sol hsome
        · exact ih cs hcs hrest uV vV sol hsome
    · exact ih cs hcs hrest uV vV sol hsome

theorem connLoopV_fail (ordU ordV : List (Nat × Nat) → List Nat)
    (uN vN : ChainMap) (root sf cs : Nat) (m : Nat) :
    ∀ (links : List (Nat × Nat)),
      (∀ p ∈ links, p.1 = m) →
      ∀ (uV vV : List (Nat × Nat)) (sol : List Nat),
        (alookup uV (m >>> 1)).isSome = true →
        (connLoopV ordU ordV uN vN root sf cs links uV vV sol).1 = false := by
  intro links
  induction links with
  | nil => intro _ uV vV sol _; rfl
  | cons x xs ih =>
    intro hall uV vV sol hsome
    obtain ⟨cnode, cedge⟩ := x
    have hcn : cnode = m := hall _ (List.mem_cons_self _ _)
    subst hcn
    have hrest : ∀ p ∈ xs, p.1 = cnode :=
      fun p hp => hall p (List.mem_cons_of_mem _ hp)
    obtain ⟨v, hv⟩ := Option.isSome_iff_exists.mp hsome
    rw [connLoopV]
    split
    · rw [if_neg (by rw [hv]; simp)]
      exact ih hrest uV vV sol hsome
    · exact ih hrest uV vV sol hsome

theorem cycleLoop_fail (ordU ordV : List (Nat × Nat) → List Nat)
    (uN vN : ChainMap) (root : Nat) (hU : chainsOk uN) (hV : chainsOk vN)
    (fuel cs cn ci : Nat) (uV vV : List (Nat × Nat)) (sol : List Nat)
    (hcs : cs ≠ 41) :
    (cycleLoop ordU ordV uN vN root fuel cs cn ci uV vV sol).1 = false := by
  cases fuel with
  | zero => rfl
  | succ f =>
    rw [cycleLoop]
    have hsome1 :
        (alookup (ainsert uV (cn >>> 1) ci) (cn >>> 1)).isSome = true := by
      rw [alookup_ainsert_self]
      rfl
    cases hch : alookup uN (cn ^^^ 1) with
    | none => rfl
    | some chain =>
      have hall := hU _ _ hch
      cases chain with
      | nil => rfl
      | cons h0 rest =>
        obtain ⟨n0, e0⟩ := h0
        have hn0 : n0 = cn ^^^ 1 := hall _ (List.mem_cons_self _ _)
        subst hn0
        dsimp only
        split
        · exact connLoopU_fail ordU ordV uN vN root f hV cn _ cs hcs hall
            _ _ sol hsome1
        · split
          · rfl
          · split
            · rw [if_neg (by simp [hcs])]
            · split
              · rfl
              · split
                · rfl
                · cases hvch : alookup vN ((cn ^^^ 1) ^^^ 1) with
                  | none => rfl
                  | some vchain =>
                    have hallv := hV _ _ hvch
                    rw [xor_one_xor_one] at hallv
                    cases vchain with
                    | nil => rfl
                    | cons v0 vrest =>
                      obtain ⟨n1, e1⟩ := v0
                      have hn1 : n1 = cn := hallv _ (List.mem_cons_self _ _)
                      dsimp only
                      split
                      · apply connLoopV_fail ordU ordV uN vN root f cs cn
                          _ hallv _ _ sol hsome1
                      · split
                        · rfl
                        · rename_i hne
                          exfalso
                          apply hne
                          rw [hn1]
                          exact hsome1

theorem finderMainLoop_false (ordU ordV : List (Nat × Nat) → List Nat)
    (fuel : Nat) :
    ∀ (triples : List (Nat × Nat × Nat)) (uN vN : ChainMap)
      (sol : List Nat), chainsOk uN → chainsOk vN →
      finderMainLoop ordU ordV fuel triples uN vN sol = (false, sol) := by
  intro triples
  induction triples with
  | nil => intro uN vN sol _ _; rfl
  | cons tr rest ih =>
    intro uN vN sol hU hV
    obtain ⟨index, node, root⟩ := tr
    rw [finderMainLoop]
    have hU1 := chainsOk_insert hU node index
    have hV1 := chainsOk_insert hV root index
    split
    · have hcf := cycleLoop_fail ordU ordV _ _ root hU1 hV1 fuel 1 node
        index [] [] sol (by omega)
      rcases hres : cycleLoop ordU ordV
          (ainsert uN node ((node, index) :: (alookup uN node).getD []))
          (ainsert vN root ((root, index) :: (alookup vN root).getD []))
          root fuel 1 node index [] [] sol with ⟨b, s⟩
      rw [hres] at hcf
      simp only at hcf
      subst hcf
      exact ih _ _ _ hU1 hV1
    · exact ih _ _ _ hU1 hV1

theorem get_cuckatoo_solution_false
    (ordU ordV : List (Nat × Nat) → List Nat) (sol : List Nat)
    (edges : List (Nat × Nat × Nat)) :
    get_cuckatoo_solution ordU ordV sol edges = (false, sol) :=
  finderMainLoop_false ordU ordV _ edges [] [] sol chainsOk_nil chainsOk_nil

theorem find_cycle_ord_none (ordU ordV : List (Nat × Nat) → List Nat)
    (edges : List Edge) : find_cycle_ord ordU ordV edges = none := by
  unfold find_cycle_ord
  simp [get_cuckatoo_solution_false]

end Cuckatoo

/-! ## Theorems settling the claims -/

/-- C1, counterexample: at keys
(0x1234567890abcdef, 0xfedcba0987654321, 0x1111222233334444,
0x5555666677778888), nonce 1 and edge_bits 12, the miner's
siphash24_single does not return the value prescribed by the claim
(it omits the XOR of the nonce into state 0 before finalization), so the
claim as stated is false. -/
theorem c1_counterexample :
    Cuckatoo.siphash24_single
      (Cuckatoo.SipKeys.mk 0x1234567890abcdef 0xfedcba0987654321
        0x1111222233334444 0x5555666677778888) 1 12 ≠
    Cuckatoo.sipHashSpec
      (Cuckatoo.SipKeys.mk 0x1234567890abcdef 0xfedcba0987654321
        0x1111222233334444 0x5555666677778888) 12 1 := by
  decide

/-- C1, amended: ExactSipHash::hash_nonce computes exactly the claimed
SipHash-2-4 evaluation (nonce into state 3 before the two compression
rounds, nonce into state 0 before finalization, 0xff into state 2, four
finalization rounds, xor of the four states, masked unless
edge_bits = 32); the miner's siphash24_single computes the same rounds
but omits the pre-finalization XOR of the nonce into state 0 and applies
the mask exactly when edge_bits < 32. -/
theorem c1_siphash_structure :
    (∀ keys eb nonce,
        Cuckatoo.hash_nonce keys eb nonce = Cuckatoo.sipHashSpec keys eb nonce) ∧
    (∀ keys eb nonce,
        Cuckatoo.siphash24_single keys nonce eb =
          Cuckatoo.sipHashSpecNoPre keys eb nonce) := by
  refine ⟨fun _ _ _ => rfl, fun keys eb nonce => ?_⟩
  unfold Cuckatoo.siphash24_single Cuckatoo.sipHashSpecNoPre
  simp only [Nat.xor_assoc]
  rfl

set_option maxRecDepth 100000 in
/-- C2 (code_bug), evaluation at the failing input: the repository's
blake2b returns identical keys for the empty header and for the 238-byte
all-zero header (with nonce 0), because its header loop is a fixed-point
of the zero byte; genuine Blake2b-256 over header plus little-endian
nonce distinguishes inputs of different length. -/
theorem c2_blake2b_collision :
    Cuckatoo.blake2b [] 0 = Cuckatoo.blake2b (List.replicate 238 0) 0 := by
  decide

set_option maxRecDepth 1000000 in
/-- C3, counterexample: with keys testKeys, edge_bits 4 and
trimming_rounds 1, the trimming loop of ExactTrimmer::trim_edges does
not compute what the claim describes (one full U-and-V mark/sweep round
with a fixed-point early exit): the code's round 0 performs the
partition-U mark/sweep only. -/
theorem c3_counterexample :
    (Cuckatoo.ExactTrimmer.runRounds (Cuckatoo.ExactSipHash.mk Cuckatoo.testKeys 4)
      (Cuckatoo.ExactTrimmer.initEdgesBitmap (Cuckatoo.ExactTrimmer.new 4)) 1).edges_bitmap ≠
    (Cuckatoo.ExactTrimmer.specTrimRounds (Cuckatoo.ExactSipHash.mk Cuckatoo.testKeys 4)
      (Cuckatoo.ExactTrimmer.initEdgesBitmap (Cuckatoo.ExactTrimmer.new 4)) 1).edges_bitmap := by
  decide

/-- C3, amended: in both trimmers, round 0 of the trimming loop performs
only the partition-U mark/sweep (steps one and two) and every later
round performs only the partition-V mark/sweep (steps three and four);
the loop always runs exactly trimming_rounds iterations, with no
early exit at a round that removes zero edges. -/
theorem c3_round_structure :
    (∀ (sip : Cuckatoo.ExactSipHash) (t : Cuckatoo.ExactTrimmer) (r : Nat),
      Cuckatoo.ExactTrimmer.runRounds sip t (r + 1) =
        (fun s => Cuckatoo.ExactTrimmer.trim_edges_step_four sip
          (Cuckatoo.ExactTrimmer.trim_edges_step_three sip
            (Cuckatoo.ExactTrimmer.clear_nodes s)))^[r]
          (Cuckatoo.ExactTrimmer.trim_edges_step_two sip
            (Cuckatoo.ExactTrimmer.trim_edges_step_one sip
              (Cuckatoo.ExactTrimmer.clear_nodes t)))) ∧
    (∀ (key : Cuckatoo.SipKeys) (t : Cuckatoo.BitmapTrimmer) (r : Nat),
      Cuckatoo.BitmapTrimmer.runRounds key t (r + 1) =
        (fun s => Cuckatoo.BitmapTrimmer.trim_edges_step_four key
          (Cuckatoo.BitmapTrimmer.trim_edges_step_three key s))^[r]
          (Cuckatoo.BitmapTrimmer.trim_edges_step_two key
            (Cuckatoo.BitmapTrimmer.trim_edges_step_one key t))) := by
  constructor
  · intro sip t r
    induction r with
    | zero =>
      simp [Cuckatoo.ExactTrimmer.runRounds, Cuckatoo.ExactTrimmer.applyRound,
        List.range_succ, List.range_zero]
    | succ n ih =>
      rw [Cuckatoo.exact_runRounds_succ, ih, Function.iterate_succ_apply']
      simp [Cuckatoo.ExactTrimmer.applyRound]
  · intro key t r
    induction r with
    | zero =>
      simp [Cuckatoo.BitmapTrimmer.runRounds, Cuckatoo.BitmapTrimmer.applyRound,
        List.range_succ, List.range_zero]
    | succ n ih =>
      rw [Cuckatoo.bitmap_runRounds_succ, ih, Function.iterate_succ_apply']
      simp [Cuckatoo.BitmapTrimmer.applyRound]

/-- C5: for both trimmers, across the rounds of trim_edges the edges
bitmap only loses bits (a bit set after r + k rounds was set after r
rounds) and its population count is non-increasing. -/
theorem c5_trim_monotone :
    (∀ (sip : Cuckatoo.ExactSipHash) (t : Cuckatoo.ExactTrimmer) (r k : Nat),
      Cuckatoo.bitmapSub
        (Cuckatoo.ExactTrimmer.runRounds sip t (r + k)).edges_bitmap
        (Cuckatoo.ExactTrimmer.runRounds sip t r).edges_bitmap ∧
      Cuckatoo.popcountBitmap
          (Cuckatoo.ExactTrimmer.runRounds sip t (r + k)).edges_bitmap ≤
        Cuckatoo.popcountBitmap
          (Cuckatoo.ExactTrimmer.runRounds sip t r).edges_bitmap) ∧
    (∀ (key : Cuckatoo.SipKeys) (eb r k : Nat),
      Cuckatoo.bitmapSub
        (Cuckatoo.BitmapTrimmer.runRounds key
          (Cuckatoo.BitmapTrimmer.generate_edges_bitmap
            (Cuckatoo.BitmapTrimmer.new eb)) (r + k)).edges_bitmap
        (Cuckatoo.BitmapTrimmer.runRounds key
          (Cuckatoo.BitmapTrimmer.generate_edges_bitmap
            (Cuckatoo.BitmapTrimmer.new eb)) r).edges_bitmap ∧
      Cuckatoo.popcountBitmap
          (Cuckatoo.BitmapTrimmer.runRounds key
            (Cuckatoo.BitmapTrimmer.generate_edges_bitmap
              (Cuckatoo.BitmapTrimmer.new eb)) (r + k)).edges_bitmap ≤
        Cuckatoo.popcountBitmap
          (Cuckatoo.BitmapTrimmer.runRounds key
            (Cuckatoo.BitmapTrimmer.generate_edges_bitmap
              (Cuckatoo.BitmapTrimmer.new eb)) r).edges_bitmap) := by
  constructor
  · intro sip t r k
    exact ⟨Cuckatoo.exact_runRounds_sub sip t r k,
      Cuckatoo.popcountBitmap_mono (Cuckatoo.exact_runRounds_sub sip t r k)⟩
  · intro key eb r k
    have hw : Cuckatoo.wordsLt
        (Cuckatoo.BitmapTrimmer.generate_edges_bitmap
          (Cuckatoo.BitmapTrimmer.new eb)).edges_bitmap :=
      Cuckatoo.wordsLt_initBitmapList _ _
    exact ⟨Cuckatoo.bitmap_runRounds_sub key _ hw r k,
      Cuckatoo.popcountBitmap_mono (Cuckatoo.bitmap_runRounds_sub key _ hw r k)⟩

/-- C6: at every state of the trimming computation of either trimmer
(after bitmap initialization and after each mark and each sweep step of
every round), every bit of the edges bitmap at a position at or above
2 ^ edge_bits is zero. -/
theorem c6_padding_invariant :
    (∀ (sip : Cuckatoo.ExactSipHash) (eb rounds : Nat)
        (s : Cuckatoo.ExactTrimmer),
      s ∈ Cuckatoo.ExactTrimmer.trace sip (Cuckatoo.ExactTrimmer.new eb) rounds →
      Cuckatoo.padOkB (2 ^ eb) s.edges_bitmap = true) ∧
    (∀ (key : Cuckatoo.SipKeys) (eb rounds : Nat)
        (s : Cuckatoo.BitmapTrimmer),
      s ∈ Cuckatoo.BitmapTrimmer.trace key (Cuckatoo.BitmapTrimmer.new eb) rounds →
      Cuckatoo.padOkB (2 ^ eb) s.edges_bitmap = true) := by
  constructor
  · intro sip eb rounds s hs
    have hNle : 2 ^ (eb % 32) ≤ 2 ^ eb :=
      Nat.pow_le_pow_right (by omega) (Nat.mod_le _ _)
    apply Cuckatoo.padOkB_mono hNle
    rw [Cuckatoo.ExactTrimmer.trace] at hs
    rcases List.mem_cons.mp hs with h | h
    · subst h; exact Cuckatoo.exact_init_padOk eb
    · exact Cuckatoo.exact_traceGo_padOk sip _ _ _
        (Cuckatoo.exact_init_padOk eb) s h
  · intro key eb rounds s hs
    have hNle : 2 ^ (eb % 64) ≤ 2 ^ eb :=
      Nat.pow_le_pow_right (by omega) (Nat.mod_le _ _)
    apply Cuckatoo.padOkB_mono hNle
    rw [Cuckatoo.BitmapTrimmer.trace] at hs
    rcases List.mem_cons.mp hs with h | h
    · subst h; exact Cuckatoo.bitmap_init_padOk eb
    · exact Cuckatoo.bitmap_traceGo_padOk key _ _ _
        (Cuckatoo.wordsLt_initBitmapList _ _) (Cuckatoo.bitmap_init_padOk eb) s h

/-- C6, witness: the state right after bitmap initialization at
edge_bits 4 with one round is in the trace and satisfies the padding
invariant. -/
theorem c6_witness :
    Cuckatoo.ExactTrimmer.initEdgesBitmap (Cuckatoo.ExactTrimmer.new 4) ∈
      Cuckatoo.ExactTrimmer.trace (Cuckatoo.ExactSipHash.mk Cuckatoo.testKeys 4)
        (Cuckatoo.ExactTrimmer.new 4) 1 ∧
    Cuckatoo.padOkB (2 ^ 4)
      (Cuckatoo.ExactTrimmer.initEdgesBitmap
        (Cuckatoo.ExactTrimmer.new 4)).edges_bitmap = true :=
  ⟨List.mem_cons_self _ _,
    c6_padding_invariant.1 (Cuckatoo.ExactSipHash.mk Cuckatoo.testKeys 4) 4 1 _
      (List.mem_cons_self _ _)⟩

set_option maxRecDepth 100000 in
/-- C7 (code_bug), evaluation at the failing input: at edge_bits 7 with
keys testKeys and the freshly initialized (all alive) edges bitmap,
BitmapTrimmer::trim_edges_step_one marks only three nodes-bitmap bits
(those of the edge indices 0, 64 and 65 its loop computes), and in
particular the node hash(keys, 2 * 1) of the alive edge 1 is NOT marked,
although the claim requires the nodes of all 128 alive edges to be
marked. -/
theorem c7_bitmap_mark_wrong :
    ((Cuckatoo.BitmapTrimmer.generate_edges_bitmap
        (Cuckatoo.BitmapTrimmer.new 7)).edges_bitmap.getD 0 0).testBit 1
        = true ∧
    Cuckatoo.popcountBitmap
      (Cuckatoo.BitmapTrimmer.trim_edges_step_one Cuckatoo.testKeys
        (Cuckatoo.BitmapTrimmer.generate_edges_bitmap
          (Cuckatoo.BitmapTrimmer.new 7))).nodes_bitmap = 3 ∧
    Cuckatoo.isBitSet64
      (Cuckatoo.BitmapTrimmer.trim_edges_step_one Cuckatoo.testKeys
        (Cuckatoo.BitmapTrimmer.generate_edges_bitmap
          (Cuckatoo.BitmapTrimmer.new 7))).nodes_bitmap
      (Cuckatoo.BitmapTrimmer.siphash24 (Cuckatoo.BitmapTrimmer.new 7)
        Cuckatoo.testKeys 2) = false := by
  decide

/-- C9, counterexample: ExactTrimmer::new accepts the out-of-range value
edge_bits = 9 and allocates the full 8-word edges bitmap for it; no
invalid-parameter rejection happens at trimmer construction. -/
theorem c9_counterexample :
    (Cuckatoo.ExactTrimmer.new 9).edges_bitmap = List.replicate 8 0 ∧
    (Cuckatoo.ExactTrimmer.new 9).number_of_edges = 512 := by
  exact ⟨rfl, rfl⟩

/-- C9, amended: Config::validate and SipHash::hash_header reject
edge_bits outside 10..=32 with an invalid-parameter error before any
work and accept every value inside the range; ExactTrimmer::new performs
no validation at all and allocates its bitmaps for any edge_bits
(shown here for edge_bits up to 31). -/
theorem c9_validation :
    (∀ c : Cuckatoo.Config, (c.edge_bits < 10 ∨ c.edge_bits > 32) →
      Cuckatoo.Config.validate c =
        Except.error (Cuckatoo.CuckatooError.InvalidEdgeBits c.edge_bits)) ∧
    (∀ c : Cuckatoo.Config, 10 ≤ c.edge_bits → c.edge_bits ≤ 32 →
      Cuckatoo.Config.validate c = Except.ok ()) ∧
    (∀ (h : Cuckatoo.SipHash) (bytes : List Nat) (nonce eb : Nat),
      (eb < 10 ∨ eb > 32) →
      Cuckatoo.SipHash.hash_header h bytes nonce eb =
        Except.error (Cuckatoo.CuckatooError.InvalidEdgeBits eb)) ∧
    (∀ (h : Cuckatoo.SipHash) (bytes : List Nat) (nonce eb : Nat),
      10 ≤ eb → eb ≤ 32 →
      (Cuckatoo.SipHash.hash_header h bytes nonce eb).isOk = true) ∧
    (∀ eb : Nat, eb ≤ 31 →
      (Cuckatoo.ExactTrimmer.new eb).edges_bitmap.length =
        (2 ^ eb + 63) / 64) := by
  refine ⟨?_, ?_, ?_, ?_, ?_⟩
  · intro c h
    unfold Cuckatoo.Config.validate
    rw [if_pos h]
  · intro c h1 h2
    unfold Cuckatoo.Config.validate
    rw [if_neg (by omega)]
  · intro h bytes nonce eb hr
    unfold Cuckatoo.SipHash.hash_header
    rw [if_pos hr]
  · intro h bytes nonce eb h1 h2
    unfold Cuckatoo.SipHash.hash_header
    rw [if_neg (by omega)]
    rfl
  · intro eb heb
    show (List.replicate ((Cuckatoo.wrap32 (1 <<< (eb % 32)) + 63) / 64)
      0).length = _
    rw [List.length_replicate,
      Nat.mod_eq_of_lt (show eb < 32 by omega),
      Cuckatoo.wrap32_pow (show eb < 32 by omega)]

/-- C9, witness: at edge_bits 9 validation and hash_header reject, at
edge_bits 10 validation accepts, and ExactTrimmer::new allocates the
full bitmap at the rejected value 9. -/
theorem c9_witness :
    Cuckatoo.Config.validate
        (Cuckatoo.Config.mk 9 90 Cuckatoo.TrimmingMode.leanMode false) =
      Except.error (Cuckatoo.CuckatooError.InvalidEdgeBits 9) ∧
    Cuckatoo.SipHash.hash_header (Cuckatoo.SipHash.mk Cuckatoo.testKeys)
        [] 0 33 =
      Except.error (Cuckatoo.CuckatooError.InvalidEdgeBits 33) ∧
    Cuckatoo.Config.validate
        (Cuckatoo.Config.mk 10 90 Cuckatoo.TrimmingMode.leanMode false) =
      Except.ok () ∧
    (Cuckatoo.ExactTrimmer.new 9).edges_bitmap.length = (2 ^ 9 + 63) / 64 :=
  ⟨c9_validation.1 _ (by decide),
    c9_validation.2.2.1 _ _ _ _ (by decide),
    c9_validation.2.1 _ (by decide) (by decide),
    c9_validation.2.2.2.2 9 (by decide)⟩

/-- C4: whenever the cycle finder returns Some(s), s is well-formed —
this holds vacuously, and the strongest true statement is proved here:
HashCycleFinder never returns a solution, for any survivor list and any
visited-map iteration order.  Every search path is pruned by the
visited-pair entry the search itself inserted for the starting edge
(e.g. line 102 of hash_cycle_finder.rs inserts current_node >> 1 into
u_visited_pairs, and every reachable recursion or walk step checks that
same pair and bails out), so the main loop processes every edge without
ever reaching a success return. -/
theorem c4_finder_never_finds :
    ∀ (ordU ordV : List (Nat × Nat) → List Nat)
      (edges : List Cuckatoo.Edge),
      Cuckatoo.find_cycle_ord ordU ordV edges = none ∧
      Cuckatoo.find_cycle edges = none := by
  intro ordU ordV edges
  exact ⟨Cuckatoo.find_cycle_ord_none ordU ordV edges,
    Cuckatoo.find_cycle_ord_none _ _ edges⟩

/-- C8: the full core (blake2b key derivation, ExactTrimmer trimming,
hash cycle finder) is deterministic: two runs on the same
(header, nonce, edge_bits, trimming_rounds), even with different
visited-map iteration orders (the only nondeterminism a Rust HashMap
introduces), produce the identical optional solution. -/
theorem c8_core_deterministic :
    ∀ (o1 o2 o3 o4 : List (Nat × Nat) → List Nat) (header : List Nat)
      (nonce edge_bits trimming_rounds : Nat),
      Cuckatoo.runCore o1 o2 header nonce edge_bits trimming_rounds =
        Cuckatoo.runCore o3 o4 header nonce edge_bits trimming_rounds := by
  intro o1 o2 o3 o4 header nonce eb r
  unfold Cuckatoo.runCore
  simp [Cuckatoo.find_cycle_ord_none]

/-- C10: on an empty survivor list the cycle finder returns no solution
without writing to the caller-supplied solution buffer: find_cycle gives
none and get_cuckatoo_solution returns false with the buffer unchanged,
for every buffer and iteration order. -/
theorem c10_empty_input :
    Cuckatoo.find_cycle [] = none ∧
    (∀ (ordU ordV : List (Nat × Nat) → List Nat) (solution : List Nat),
      Cuckatoo.get_cuckatoo_solution ordU ordV solution [] =
        (false, solution)) :=
  ⟨Cuckatoo.find_cycle_ord_none _ _ [],
    fun oU oV sol => Cuckatoo.get_cuckatoo_solution_false oU oV sol []⟩
